import Mathlib

/-!
Verification of the egemi document-browsing engine against its specification.

The Rust source is shallowly embedded: pure functions become Lean functions,
stateful code becomes explicit state passing, and asynchronous fetches are
modelled as pure functions of an already-received response / filesystem model
(the I/O boundary is the model's input).  String operations from the Rust
standard library (`starts_with`, `strip_prefix`, `trim`, `replacen`,
`str::lines`) are re-implemented over `String.data` character lists, following
their documented semantics, so that proofs can proceed by list induction.
-/

namespace Gemtext

/-- The non-breaking space character used by the code-fence indentation
workaround (`\u{a0}` in the Rust source). -/
def nbsp : Char := Char.ofNat 160

/-- `Block` from src/gemtext.rs: a parsed chunk of gemtext. -/
inductive Block where
  | heading (level : Nat) (text : String)
  | text (s : String)
  | listItem (text : String)
  | blockQuote (lines : List Block)
  | codeFence (meta : String) (lines : List String)
  | link (url : String) (text : String)
deriving Repr

/-- Rust `str::starts_with` for a string pattern, over character lists. -/
def strStartsWith (s p : String) : Bool := p.data.isPrefixOf s.data

/-- Drop the first `n` characters (Rust slicing `&s[n..]` after a known ASCII
prefix, as done by `strip_prefix`). -/
def strDrop (s : String) (n : Nat) : String := ⟨s.data.drop n⟩

/-- Whitespace in the sense of the regex class `\s` and Rust `char::is_whitespace`
(modelled by the ASCII whitespace characters, which are the only ones the
claims touch). -/
def isWs (c : Char) : Bool := c = ' ' ∨ c = '\t' ∨ c = '\n' ∨ c = '\r' ∨ c = '\x0b' ∨ c = '\x0c'

/-- Trim whitespace from both ends of a character list (Rust `str::trim`). -/
def trimChars (cs : List Char) : List Char :=
  ((cs.dropWhile isWs).reverse.dropWhile isWs).reverse

/-- Rust `str::trim`. -/
def strTrim (s : String) : String := ⟨trimChars s.data⟩

/-- Rust `str::replacen(" ", "\u{a0}", n)` over characters: replace the first
`n` occurrences of a space, anywhere in the list, with `nbsp`. -/
def replacenChars : List Char → Nat → List Char
  | cs, 0 => cs
  | [], _ + 1 => []
  | c :: cs, n + 1 =>
    if c = ' ' then nbsp :: replacenChars cs n else c :: replacenChars cs (n + 1)

/-- Rust `str::replacen(" ", "\u{a0}", n)`. -/
def rustReplacen (s : String) (n : Nat) : String := ⟨replacenChars s.data n⟩

/-- Strip one trailing carriage return, as Rust `str::lines` does per line. -/
def stripCRChars (cs : List Char) : List Char :=
  if cs.getLast? = some '\r' then cs.dropLast else cs

/-- Split a character list at every newline (keeping empty pieces). -/
def splitNL : List Char → List (List Char)
  | [] => [[]]
  | c :: cs =>
    if c = '\n' then [] :: splitNL cs
    else
      match splitNL cs with
      | l :: ls => (c :: l) :: ls
      | [] => [[c]]

/-- Rust `str::lines`: split on `'\n'`, strip one trailing `'\r'` per line,
and do not produce a final empty line for a trailing newline. -/
def rustLines (s : String) : List String :=
  if s.data = [] then []
  else
    let parts := splitNL s.data
    let parts := if s.data.getLast? = some '\n' then parts.dropLast else parts
    parts.map (fun cs => ⟨stripCRChars cs⟩)

/-- `HeaderLine` regex `^(?P<hashes>#+)([ ]+)(?P<heading>.*)$` over characters:
a maximal nonempty run of `#`, a maximal nonempty run of spaces, then the rest
of the line, which (since `.` does not match a newline) must contain no `'\n'`. -/
def headerParseChars (cs : List Char) : Option (Nat × String) :=
  let hs := cs.takeWhile (· = '#')
  let rest1 := cs.dropWhile (· = '#')
  let sp := rest1.takeWhile (· = ' ')
  let rest := rest1.dropWhile (· = ' ')
  if 1 ≤ hs.length ∧ 1 ≤ sp.length ∧ '\n' ∉ rest then
    some (hs.length, ⟨rest⟩)
  else
    none

/-- `HeaderLine` from src/gemtext.rs.  The Rust struct stores the level as a
`u8` via `hashes.len() as u8`, i.e. reduced modulo 256. -/
structure HeaderLine where
  level : Nat
  text : String

/-- `HeaderLine::parse`. -/
def HeaderLine.parse (s : String) : Option HeaderLine :=
  (headerParseChars s.data).map fun p => ⟨p.1 % 256, p.2⟩

/-- `LinkLine` regex `^=>\s+(?P<url>\S+)(\s+(?P<text>\S.*?))?\s*$` over
characters: literal `=>`, a nonempty run of whitespace, a maximal nonempty run
of non-whitespace as the url, then an optional display text running from the
next non-whitespace character to the last non-whitespace character of the line
(which, as `.` does not match newlines, must contain no `'\n'`). -/
def linkParseChars (cs : List Char) : Option (String × String) :=
  match cs with
  | '=' :: '>' :: rest =>
    let sp1 := rest.takeWhile isWs
    let rest1 := rest.dropWhile isWs
    if sp1.length = 0 then none
    else
      let url := rest1.takeWhile (fun c => ¬ isWs c)
      let rest2 := rest1.dropWhile (fun c => ¬ isWs c)
      if url.length = 0 then none
      else
        let text := trimChars rest2
        if '\n' ∈ text then none
        else some (⟨url⟩, ⟨text⟩)
  | _ => none

/-- `LinkLine::parse`, returning `(url, text)`; a missing display text becomes
the empty string (`unwrap_or("")` in the source). -/
def LinkLine.parse (s : String) : Option (String × String) := linkParseChars s.data

/-- `ListItem` regex `^\s?\*\s(?P<text>.+?)\s*$` over characters: an optional
single whitespace, a literal `*`, a single whitespace, then a lazy nonempty
text ending at the last non-whitespace character (if the remainder is entirely
whitespace the lazy group captures just its first character, which must not be
a newline). -/
def listItemParseChars (cs : List Char) : Option String :=
  let cs1 := match cs with
    | c :: rest => if isWs c then rest else cs
    | [] => []
  match cs1 with
  | '*' :: c :: rest =>
    if isWs c then
      let body := trimChars rest
      if body = [] then
        match rest with
        | [] => none
        | r :: _ => if r = '\n' then none else some ⟨[r]⟩
      else if '\n' ∈ body then none
      else some ⟨body⟩
    else none
  | _ => none

/-- `ListItem::parse`. -/
def ListItem.parse (s : String) : Option String := listItemParseChars s.data

/-- The in-progress code fence state of `Options::parse` (struct `CodeFence`). -/
structure CodeFenceSt where
  meta : String
  lines : List String

/-- Flushing a pending block quote (`quote.take()` push in the source). -/
def quoteFlush : Option (List String) → List Block
  | none => []
  | some q => [.blockQuote (q.map Block.text)]

/-- The line loop of `Options::parse` in src/gemtext.rs, with the mutable
`code`, `quote` and `blocks` variables passed explicitly. -/
def parseLoop (strict : Bool) :
    Option CodeFenceSt → Option (List String) → List Block → List String →
    Except String (List Block)
  | code, quote, blocks, [] =>
    let blocks := match code with
      | some cf => blocks ++ [.codeFence cf.meta cf.lines]
      | none => blocks
    .ok (blocks ++ quoteFlush quote)
  | code, quote, blocks, line :: rest =>
    if strStartsWith line "```" then
      let meta := strTrim (strDrop line 3)
      match code with
      | some existing =>
        if meta ≠ "" ∧ strict then
          .error ("Found end code guard with meta: " ++ meta)
        else
          parseLoop strict none quote
            (blocks ++ [.codeFence existing.meta existing.lines]) rest
      | none => parseLoop strict (some ⟨meta, []⟩) quote blocks rest
    else
      match code with
      | some cf =>
        let line := if strStartsWith line " " then rustReplacen line 5 else line
        parseLoop strict (some ⟨cf.meta, cf.lines ++ [line]⟩) quote blocks rest
      | none =>
        if strStartsWith line ">" then
          let text := strTrim (strDrop line 1)
          parseLoop strict none (some ((quote.getD []) ++ [text])) blocks rest
        else
          let blocks := blocks ++ quoteFlush quote
          match HeaderLine.parse line with
          | some h => parseLoop strict none none (blocks ++ [.heading h.level h.text]) rest
          | none =>
            match LinkLine.parse line with
            | some lk => parseLoop strict none none (blocks ++ [.link lk.1 lk.2]) rest
            | none =>
              match ListItem.parse line with
              | some text => parseLoop strict none none (blocks ++ [.listItem text]) rest
              | none => parseLoop strict none none (blocks ++ [.text line]) rest

/-- `Options` from src/gemtext.rs (default has `strict = false`). -/
structure Options where
  strict : Bool := false

/-- `Options::parse`. -/
def Options.parse (o : Options) (value : String) : Except String (List Block) :=
  parseLoop o.strict none none [] (rustLines value)

end Gemtext

namespace Net

/-- A parsed media type, modelling the `mime` crate: the `type/subtype`
essence (lowercased) plus the raw parameter suffix. -/
structure Mime where
  type_ : String
  subtype : String
  params : String
deriving Repr, DecidableEq

/-- `Mime::essence_str`: the `type/subtype` part, ignoring parameters. -/
def Mime.essence (m : Mime) : String := m.type_ ++ "/" ++ m.subtype

/-- A character allowed inside a media-type token. -/
def tokenOk (cs : List Char) : Bool :=
  cs ≠ [] ∧ cs.all (fun c => ¬ Gemtext.isWs c ∧ c ≠ '/' ∧ c ≠ ';')

/-- Modelled collaborator: `str::parse::<Mime>` of the `mime` crate.  The
input up to the first `;` must be a `type/subtype` pair of nonempty tokens
(lowercased on parse); anything else fails to parse.  Parameters are carried
along uninterpreted. -/
def mimeParse (s : String) : Option Mime :=
  let cs := s.data
  let params := cs.dropWhile (· ≠ ';')
  let main := Gemtext.trimChars (cs.takeWhile (· ≠ ';'))
  let ty := main.takeWhile (· ≠ '/')
  match main.dropWhile (· ≠ '/') with
  | '/' :: sub =>
    if tokenOk ty ∧ tokenOk sub then
      some ⟨⟨ty.map Char.toLower⟩, ⟨sub.map Char.toLower⟩, ⟨params⟩⟩
    else none
  | _ => none

/-- `FileStatus` from src/browser/network/file.rs. -/
inductive FileStatus where
  | ok
  | dirNeedsSlash
  | notFound
  | tooBig (bytes : Nat)
deriving Repr, DecidableEq

/-- `Status` from the network module: an HTTP-style status or a file-system
outcome (the `FileStatus` variant's `Into<Status>` is in file.rs). -/
inductive Status where
  | httpStatus (code : Nat)
  | fileStatus (s : FileStatus)
deriving Repr, DecidableEq

/-- `Status::ok`.  The HTTP arm is from network.rs; the `FileStatus` arm is
modelled from the spec: only the `Ok` file outcome is a success (the spec's
`is_success` predicate, and tab.rs treats `DirNeedsSlash` as not-ok). -/
def Status.ok : Status → Bool
  | .httpStatus code => 200 ≤ code && code < 300
  | .fileStatus fs => match fs with | .ok => true | _ => false

/-- `Error` from the network module.  The enum's defining file is not in the
snapshot in its current form; the variants are reconstructed from their
construction sites (http.rs, file.rs), the exhaustive match in tab.rs
`render_err`, and the spec's error union. -/
inductive Error where
  | unknown (msg : String)
  | unsupportedContentType (m : Mime)
  | missingContentType
  | mimeParseError
  | unrequestedContentType (m : Mime)
  | responseTooBig (actual limit : Nat)
  | invalidUrl (url : String)
  | ioError
  | unsupportedUrlScheme (scheme : String)
deriving Repr, DecidableEq

/-- `Body` from the network module. -/
inductive Body where
  | bytes (bs : List Nat)
  | text (s : String)
deriving Repr, DecidableEq

/-- `LoadedResource` from the network module (field order as in the source). -/
structure LoadedResource where
  url : String
  status : Status
  length : Option Nat
  content_type : Option Mime
  body : Body
deriving Repr, DecidableEq

/-- `HttpLoader` configuration from src/browser/network/http.rs (the fields
that determine fetch behaviour; the reqwest client itself is the modelled I/O
boundary). -/
structure HttpLoader where
  max_size : Option Nat
  accept_content_types : List Mime

/-- `HttpLoader::default`: a 100 MiB ceiling and the three accepted content
types, parsed exactly as the source parses its literals. -/
def HttpLoader.default : HttpLoader :=
  { max_size := some (1024 * 1024 * 100)
    accept_content_types :=
      [mimeParse "text/gemini; q=1", mimeParse "text/markdown; q=0.9",
       mimeParse "text/plain; q=0.8"].reduceOption }

/-- The already-received HTTP response: the I/O boundary of
`HttpLoader::_fetch`.  Header values are assumed to be valid ASCII (the
`to_str` failure path is not exercised by any claim). -/
structure HttpResponse where
  statusCode : Nat
  contentTypeHeader : Option String
  contentLength : Option Nat
  bodyText : String

/-- `HttpLoader::_fetch` after the request has been sent, as a pure function
of the response.  The second component counts how many times the response
body was read (`response.text()`), so "before the body is read" is a
statement about the count being zero. -/
def HttpLoader.fetchResponse (self : HttpLoader) (url : String)
    (response : HttpResponse) : Except Error LoadedResource × Nat :=
  let ctypeE : Except Error (Option Mime) :=
    match response.contentTypeHeader with
    | none => .ok none
    | some s =>
      match mimeParse s with
      | none => .error .mimeParseError
      | some m => .ok (some m)
  match ctypeE with
  | .error e => (.error e, 0)
  | .ok ctype =>
    let length := response.contentLength
    let status := Status.httpStatus response.statusCode
    -- NOTE: the source's size ceiling is only "// TODO: Check too big." —
    -- max_size is never consulted, so no check appears here.
    let check : Except Error Unit :=
      if status.ok then
        match ctype with
        | none => .error .missingContentType
        | some mime =>
          if self.accept_content_types.any (fun mt => mt.essence = mime.essence) then
            .ok ()
          else
            .error (.unrequestedContentType mime)
      else .ok ()
    match check with
    | .error e => (.error e, 0)
    | .ok _ =>
      let text := response.bodyText
      (.ok ⟨url, status, length, ctype, .text text⟩, 1)

/-- A filesystem node, for modelling the file loader's I/O boundary. -/
inductive FsNode where
  | file (size : Nat) (content : String)
  | dir
  | symlink (target : String)
  | special
deriving Repr, DecidableEq

/-- A filesystem: a finite map from absolute paths to nodes. -/
abbrev Fs := List (String × FsNode)

/-- Look a path up in the filesystem. -/
def fsLookup (fs : Fs) (path : String) : Option FsNode :=
  (fs.find? (fun e => e.1 = path)).map (·.2)

/-- Metadata as `tokio::fs::metadata` reports it. -/
structure FsMeta where
  is_dir : Bool
  is_file : Bool
  size : Nat
deriving Repr, DecidableEq

/-- Outcome of a metadata query. -/
inductive StatRes where
  | ok (m : FsMeta)
  | notFound
  | ioError
deriving Repr, DecidableEq

/-- Path lookup with the OS's trailing-slash rule: `p/` resolves like `p`
when `p` is a directory (or a link, which will be traversed). -/
def fsLookupSlash (fs : Fs) (path : String) : Option FsNode :=
  match fsLookup fs path with
  | some n => some n
  | none =>
    if path.data.getLast? = some '/' ∧ path ≠ "/" then
      match fsLookup fs ⟨path.data.dropLast⟩ with
      | some .dir => some .dir
      | some (.symlink t) => some (.symlink t)
      | _ => none
    else none

/-- Modelled collaborator `tokio::fs::metadata` (= `std::fs::metadata`): it
queries the destination of the path, TRAVERSING symbolic links, per its
documentation.  Fuel bounds link chains; exhaustion (a link cycle) is a
generic I/O error. -/
def statFollow (fs : Fs) : Nat → String → StatRes
  | 0, _ => .ioError
  | fuel + 1, path =>
    match fsLookupSlash fs path with
    | none => .notFound
    | some (.file size _) => .ok ⟨false, true, size⟩
    | some .dir => .ok ⟨true, false, 0⟩
    | some .special => .ok ⟨false, false, 0⟩
    | some (.symlink target) => statFollow fs fuel target

/-- `tokio::fs::metadata` on the model. -/
def stat (fs : Fs) (path : String) : StatRes := statFollow fs (fs.length + 1) path

/-- Modelled collaborator `tokio::fs::read_to_string`, which also traverses
symbolic links. -/
def readFollow (fs : Fs) : Nat → String → Option String
  | 0, _ => none
  | fuel + 1, path =>
    match fsLookup fs path with
    | some (.file _ content) => some content
    | some (.symlink target) => readFollow fs fuel target
    | _ => none

/-- `tokio::fs::read_to_string` on the model. -/
def readToString (fs : Fs) (path : String) : Option String :=
  readFollow fs (fs.length + 1) path

/-- A parsed `file:` URL as the `url` crate represents it: a scheme and the
percent-encoded path segments (`Url::path_segments`).  Parsed segments never
contain raw whitespace or `/`. -/
structure FileUrl where
  scheme : String
  segs : List String

/-- `Url::path` of a file URL: segments joined by `/` after a leading `/`. -/
def FileUrl.path (u : FileUrl) : String := "/" ++ String.intercalate "/" u.segs

/-- `String::from(url)` for the model (file URLs have no host). -/
def FileUrl.toUrlString (u : FileUrl) : String := u.scheme ++ "://" ++ u.path

/-- `url.path().ends_with("/")`, expressed on the segment representation:
the path ends in a slash exactly when there are no segments or the last
segment is empty. -/
def FileUrl.pathEndsWithSlash (u : FileUrl) : Bool :=
  u.segs = [] ∨ u.segs.getLast? = some ""

/-- Modelled collaborator `mime_guess::from_path(..).first()`: guess a media
type from the file extension (a representative subset of its table). -/
def mimeGuess (path : String) : Option Mime :=
  let rev := path.data.reverse
  let e := rev.takeWhile (fun c => c ≠ '.' ∧ c ≠ '/')
  let ext : String := if (rev.drop e.length).head? = some '.' then ⟨e.reverse⟩ else ""
  match ext with
  | "gmi" => some ⟨"text", "gemini", ""⟩
  | "gemini" => some ⟨"text", "gemini", ""⟩
  | "md" => some ⟨"text", "markdown", ""⟩
  | "markdown" => some ⟨"text", "markdown", ""⟩
  | "txt" => some ⟨"text", "plain", ""⟩
  | "html" => some ⟨"text", "html", ""⟩
  | "htm" => some ⟨"text", "html", ""⟩
  | "css" => some ⟨"text", "css", ""⟩
  | "png" => some ⟨"image", "png", ""⟩
  | "jpg" => some ⟨"image", "jpeg", ""⟩
  | "gif" => some ⟨"image", "gif", ""⟩
  | "pdf" => some ⟨"application", "pdf", ""⟩
  | "zip" => some ⟨"application", "zip", ""⟩
  | _ => none

/-- `text_gemini()` from the network module: the `text/gemini` media type. -/
def text_gemini : Mime := ⟨"text", "gemini", ""⟩

/-- Rust `str::replace(" ", "%20")`, used to escape names in synthesized
gemtext bodies. -/
def escapeSpaces (s : String) : String :=
  ⟨s.data.flatMap (fun c => if c = ' ' then ['%', '2', '0'] else [c])⟩

/-- `not_found` from src/browser/network/file.rs. -/
def not_found (url : FileUrl) : LoadedResource :=
  ⟨url.toUrlString, .fileStatus .notFound, none, some ⟨"text", "plain", ""⟩,
   .text "No such file"⟩

/-- `dir_needs_slash` from src/browser/network/file.rs.  The source `expect`s
at least one path segment (parsed file URLs always have one); an empty
segment list is modelled as an error in place of the panic. -/
def dir_needs_slash (url : FileUrl) : Except Error LoadedResource :=
  match url.segs.getLast? with
  | none => .error (.unknown "at least one path segment")
  | some last_seg =>
    let out := "# File Not Found\n\n" ++ "... but we found a directory. Did you mean:\n\n"
               ++ "=> " ++ escapeSpaces last_seg ++ "/"
    .ok ⟨url.toUrlString, .fileStatus .dirNeedsSlash, none, some text_gemini, .text out⟩

/-- Join a directory path and a child name with a `/`. -/
def joinPath (dir name : String) : String :=
  if dir.data.getLast? = some '/' then dir ++ name else dir ++ "/" ++ name

/-- The name under which `key` is a direct child of `dirPath`, if it is one. -/
def childNameOf (dirPath key : String) : Option String :=
  let pfx := if dirPath.data.getLast? = some '/' then dirPath else dirPath ++ "/"
  if pfx.data.isPrefixOf key.data then
    let rest := key.data.drop pfx.data.length
    if rest ≠ [] ∧ '/' ∉ rest then some ⟨rest⟩ else none
  else none

/-- `gemtext_dir_list` from src/browser/network/file.rs: synthesize a
directory listing (parent link, sorted subdirectories with trailing slash, a
blank separator, then sorted files), with spaces percent-escaped. -/
def gemtext_dir_list (fs : Fs) (url : FileUrl) (path : String) :
    Except Error LoadedResource :=
  let entries := fs.filterMap (fun e => childNameOf path e.1)
  let dirs := entries.filter (fun n =>
    match stat fs (joinPath path n) with
    | .ok m => m.is_dir
    | _ => false)
  let files := entries.filter (fun n =>
    match stat fs (joinPath path n) with
    | .ok m => m.is_file
    | _ => false)
  let dirs := dirs.mergeSort (fun a b => a ≤ b)
  let files := files.mergeSort (fun a b => a ≤ b)
  let out := if path ≠ "/" then "=> ../\n" else ""
  let out := out ++ String.join (dirs.map (fun d => "=> " ++ escapeSpaces d ++ "/\n"))
  let out := out ++ (if dirs ≠ [] then "\n" else "")
  let out := out ++ String.join (files.map (fun f => "=> " ++ escapeSpaces f ++ "\n"))
  .ok ⟨url.toUrlString, .fileStatus .ok, none, some text_gemini, .text out⟩

/-- `load_file` from src/browser/network/file.rs. -/
def load_file (fs : Fs) (url : FileUrl) (path : String) :
    Except Error LoadedResource :=
  match mimeGuess path with
  | none => .error .missingContentType
  | some content_type =>
    if content_type.type_ ≠ "text" then .error (.unsupportedContentType content_type)
    else
      match readToString fs path with
      | none => .error .ioError
      | some text =>
        .ok ⟨url.toUrlString, .fileStatus .ok, none, some content_type, .text text⟩

/-- `FileLoader::_fetch` from src/browser/network/file.rs, as a pure function
of the filesystem model.  `url.to_file_path()` is modelled as yielding the
URL's path directly (file URLs with a remote host are out of scope of every
claim). -/
def FileLoader.fetchUrl (fs : Fs) (url : FileUrl) : Except Error LoadedResource :=
  if url.scheme ≠ "file" then .error (.invalidUrl url.toUrlString)
  else
    let path := url.path
    match stat fs path with
    | .notFound => .ok (not_found url)
    | .ioError => .error .ioError
    | .ok m =>
      if m.is_dir then
        if ¬ url.pathEndsWithSlash then dir_needs_slash url
        else gemtext_dir_list fs url path
      else if m.is_file then
        if m.size > 30 * (1024 * 1024) then
          .error (.unknown ("File too large: " ++ toString m.size ++ " bytes"))
        else load_file fs url path
      else
        -- Symlinks not supported. (reached only for special files, because
        -- `stat` above has already traversed symbolic links)
        .ok (not_found url)

/-- The history-relevant state of `Tab` from src/browser/tab.rs (the
in-flight load, document and UI fields do not affect the history fields). -/
structure Tab where
  location : String
  history : List String
  forward_history : List String
deriving Repr, DecidableEq

/-- `Tab::load_url`: push the target onto the back history and make it the
current location (abort of the in-flight load, builtin pages and starting the
fetch do not touch the history fields). -/
def Tab.load_url (t : Tab) (url : String) : Tab :=
  { t with history := t.history ++ [url], location := url }

/-- `Tab::goto_url`: consume a matching forward-history top (redo), otherwise
clear the forward history; then `load_url`. -/
def Tab.goto_url (t : Tab) (url : String) : Tab :=
  let fw_history_matches := t.forward_history.getLast? = some url
  let t :=
    if fw_history_matches then { t with forward_history := t.forward_history.dropLast }
    else { t with forward_history := [] }
  t.load_url url

/-- `Tab::go_back`: warn-and-return if there is at most one entry; otherwise
move the current URL to the forward history, pop the previous URL and
navigate to it again via `load_url`.  The source's `expect`s are unreachable
(the length guard ensures two pops succeed); the `none` arms mirror that. -/
def Tab.go_back (t : Tab) : Tab :=
  if t.history.length ≤ 1 then t
  else
    match t.history.getLast? with
    | none => t
    | some current_url =>
      let t := { t with history := t.history.dropLast,
                        forward_history := t.forward_history ++ [current_url] }
      match t.history.getLast? with
      | none => t
      | some url => Tab.load_url { t with history := t.history.dropLast } url

/-- `Tab::go_forward`: pop the forward history and `load_url` it. -/
def Tab.go_forward (t : Tab) : Tab :=
  match t.forward_history.getLast? with
  | none => t
  | some next_url =>
    Tab.load_url { t with forward_history := t.forward_history.dropLast } next_url

end Net

namespace Md

/-- pulldown-cmark `HeadingLevel`. -/
inductive HeadingLevel where
  | h1 | h2 | h3 | h4 | h5 | h6
deriving Repr, DecidableEq

/-- `parse_heading`'s level mapping (H1..H6 to 1..6). -/
def headingLevelNum : HeadingLevel → Nat
  | .h1 => 1 | .h2 => 2 | .h3 => 3 | .h4 => 4 | .h5 => 5 | .h6 => 6

/-- pulldown-cmark `CodeBlockKind`. -/
inductive CodeBlockKind where
  | indented
  | fenced (info : String)
deriving Repr, DecidableEq

/-- pulldown-cmark `Tag` (start events), with the payloads the tree builder
reads; payloads it ignores (link types, heading ids/classes, table
alignments, blockquote kinds) are dropped or kept opaque. -/
inductive Tag where
  | paragraph
  | heading (level : HeadingLevel)
  | blockQuote
  | codeBlock (kind : CodeBlockKind)
  | htmlBlock
  | list (start_num : Option Nat)
  | item
  | definitionList
  | definitionListTitle
  | definitionListDefinition
  | footnoteDefinition (label : String)
  | table
  | tableHead
  | tableRow
  | tableCell
  | emphasis
  | strong
  | link (dest_url : String) (title : String) (id : String)
  | image (dest_url : String) (title : String) (id : String)
  | strikethrough
  | superscript
  | subscript
  | metadataBlock
deriving Repr, DecidableEq

/-- pulldown-cmark `TagEnd`. -/
inductive TagEnd where
  | paragraph
  | heading (level : HeadingLevel)
  | blockQuote
  | codeBlock
  | htmlBlock
  | list (ordered : Bool)
  | item
  | definitionList
  | definitionListTitle
  | definitionListDefinition
  | footnoteDefinition
  | table
  | tableHead
  | tableRow
  | tableCell
  | emphasis
  | strong
  | link
  | image
  | strikethrough
  | superscript
  | subscript
  | metadataBlock
deriving Repr, DecidableEq

/-- pulldown-cmark `Event`, the tree builder's input vocabulary. -/
inductive Event where
  | startTag (tag : Tag)
  | endTag (tag : TagEnd)
  | text (s : String)
  | code (s : String)
  | inlineMath (s : String)
  | displayMath (s : String)
  | html (s : String)
  | inlineHtml (s : String)
  | footnoteReference (s : String)
  | softBreak
  | hardBreak
  | rule
  | taskListMarker (checked : Bool)
deriving Repr, DecidableEq

/-- `Link` from src/browser/widgets/markdown/tree.rs. -/
structure MdLink where
  href : String
  text : String
deriving Repr, DecidableEq

/-- `Image` from src/browser/widgets/markdown/tree.rs. -/
structure MdImage where
  src : String
  alt : String
  title : String
deriving Repr, DecidableEq

mutual

/-- `Block` from src/browser/widgets/markdown/tree.rs. -/
inductive MdBlock where
  | heading (level : Nat) (text : String)
  | codeBlock (fenced : Option String) (text : String)
  | blockQuote (blocks : List MdBlock)
  | p (parts : List MdInline)
  | pseudoP (parts : List MdInline)
  | list (start_num : Option Nat) (blocks : List MdBlock)
  | listItem (blocks : List MdBlock)
  | hr

/-- `Inline` from src/browser/widgets/markdown/tree.rs. -/
inductive MdInline where
  | text (s : String)
  | code (s : String)
  | link (l : MdLink)
  | image (i : MdImage)
  | linkedImage (link : MdLink) (image : MdImage)
  | styled (style : Bool) (parts : List MdInline)

end

/-- `Style::Bold` is modelled as `true`, `Style::Italics` as `false` (the
two-variant `Style` enum). -/
def styleBold : Bool := true

/-- `Style::Italics`. -/
def styleItalics : Bool := false

/-- Variant name of an inline, standing in for Rust's `Debug` output inside
diagnostic strings (abbreviated; no claim depends on these strings). -/
def inlineDebugName : MdInline → String
  | .text _ => "Text"
  | .code _ => "Code"
  | .link _ => "Link"
  | .image _ => "Image"
  | .linkedImage _ _ => "LinkedImage"
  | .styled _ _ => "Styled"

/-- Variant name of a block, standing in for Rust's `Debug` output inside
diagnostic strings (abbreviated; no claim depends on these strings). -/
def blockDebugName : MdBlock → String
  | .heading _ _ => "Heading"
  | .codeBlock _ _ => "CodeBlock"
  | .blockQuote _ => "BlockQuote"
  | .p _ => "P"
  | .pseudoP _ => "PseudoP"
  | .list _ _ => "List"
  | .listItem _ => "ListItem"
  | .hr => "Hr"

/-- Variant name of a tag, standing in for Rust's `Debug` output inside
diagnostic strings. -/
def tagDebugName : Tag → String
  | .paragraph => "Paragraph"
  | .heading _ => "Heading"
  | .blockQuote => "BlockQuote"
  | .codeBlock _ => "CodeBlock"
  | .htmlBlock => "HtmlBlock"
  | .list _ => "List"
  | .item => "Item"
  | .definitionList => "DefinitionList"
  | .definitionListTitle => "DefinitionListTitle"
  | .definitionListDefinition => "DefinitionListDefinition"
  | .footnoteDefinition _ => "FootnoteDefinition"
  | .table => "Table"
  | .tableHead => "TableHead"
  | .tableRow => "TableRow"
  | .tableCell => "TableCell"
  | .emphasis => "Emphasis"
  | .strong => "Strong"
  | .link _ _ _ => "Link"
  | .image _ _ _ => "Image"
  | .strikethrough => "Strikethrough"
  | .superscript => "Superscript"
  | .subscript => "Subscript"
  | .metadataBlock => "MetadataBlock"

/-- Variant name of an event, standing in for Rust's `Debug` output inside
diagnostic strings. -/
def eventDebugName : Event → String
  | .startTag t => "Start(" ++ tagDebugName t ++ ")"
  | .endTag _ => "End"
  | .text _ => "Text"
  | .code _ => "Code"
  | .inlineMath _ => "InlineMath"
  | .displayMath _ => "DisplayMath"
  | .html _ => "Html"
  | .inlineHtml _ => "InlineHtml"
  | .footnoteReference _ => "FootnoteReference"
  | .softBreak => "SoftBreak"
  | .hardBreak => "HardBreak"
  | .rule => "Rule"
  | .taskListMarker _ => "TaskListMarker"

/-- `Inline::extract_text`. -/
def extractText : MdInline → String
  | .text t => t
  | .code t => t
  | .link l => l.text
  | .image i => i.src
  | .linkedImage _ i => i.src
  | .styled _ parts =>
    String.intercalate " " (parts.attach.map fun p => extractText p.1)
decreasing_by
  have := List.sizeOf_lt_of_mem p.2
  simp only [MdInline.styled.sizeOf_spec]
  omega

/-- `PushInline for Vec<Block>`: merge an inline into a trailing
pseudo-paragraph (`last_mut`), or append a fresh one-part pseudo-paragraph.
Written by recursion on the list; it appends/merges at the end exactly as the
`last_mut` form does. -/
def pushInline : List MdBlock → MdInline → List MdBlock
  | [], x => [.pseudoP [x]]
  | [b], x =>
    match b with
    | .pseudoP parts => [.pseudoP (parts ++ [x])]
    | b => [b, .pseudoP [x]]
  | a :: b :: rest, x => a :: pushInline (b :: rest) x

/-- The post-processing of `parse_inline`: keep the parts of
pseudo-paragraphs, turn any other block into a visible diagnostic inline. -/
def flattenInline (bs : List MdBlock) : List MdInline :=
  bs.flatMap fun b =>
    match b with
    | .pseudoP parts => parts
    | b => [.text ("(Unexpected Inline Block: " ++ blockDebugName b ++ ")")]

/-- The per-part mapping of `parse_link`: duplicate the link across every
inner inline part (text becomes a plain link, code/styled spans are reduced
to their extracted text, an inner image becomes a `LinkedImage`, and nested
links are surfaced as diagnostics). -/
def linkify (dest_url : String) (parts : List MdInline) : List MdInline :=
  parts.map fun part =>
    match part with
    | .text text => .link ⟨dest_url, text⟩
    | .code c => .link ⟨dest_url, extractText (.code c)⟩
    | .styled st ps => .link ⟨dest_url, extractText (.styled st ps)⟩
    | .image image => .linkedImage ⟨dest_url, ""⟩ image
    | .linkedImage l i =>
      .link ⟨dest_url, "Unexpected within link: " ++ inlineDebugName (.linkedImage l i)⟩
    | .link l => .link ⟨dest_url, "Unexpected within link: " ++ inlineDebugName (.link l)⟩

/-- The alt-text computation of `parse_image`: the single inner Text part if
present, else the reference id, else the raw URL (with diagnostics for
unexpected shapes). -/
def imageAlt (parts : List MdInline) (id : String) (dest_url : String) : String :=
  let alt : String :=
    match parts with
    | [] => ""
    | [part] =>
      match part with
      | .text text => text
      | part => "(Error: Unexpected inline element in image: " ++ inlineDebugName part ++ ")"
    | parts => "(Error: Too many inline elements: "
               ++ String.intercalate ", " (parts.map inlineDebugName) ++ ")"
  let alt := if alt = "" then id else alt
  if alt = "" then dest_url else alt

/-- The text-collecting loop of `parse_heading` (unsupported events are
logged and skipped). -/
def parseHeadingText : List Event → String → String × List Event
  | [], acc => (acc, [])
  | e :: es, acc =>
    match e with
    | .endTag (.heading _) => (acc, es)
    | .text s => parseHeadingText es (acc ++ s)
    | _ => parseHeadingText es acc

/-- The text-collecting loop of `parse_code` (unexpected events become
visible diagnostic strings). -/
def parseCodeText : List Event → List String → List String × List Event
  | [], acc => (acc, [])
  | e :: es, acc =>
    match e with
    | .endTag .codeBlock => (acc, es)
    | .text s => parseCodeText es (acc ++ [s])
    | e => parseCodeText es
        (acc ++ ["\n\nERROR: Unexpected Markdown Event in code block: "
                 ++ eventDebugName e ++ "\n\n"])

/-- `Parser::parse_blocks_until` from src/browser/widgets/markdown/tree.rs:
consume events until an End matching the predicate (or exhaustion), with the
shared-cursor recursion made explicit (each call returns the unconsumed
events).  Fuel makes the recursion structural; every recursive call uses the
predecessor, so any fuel larger than the work to do yields `some`.  The
`Start(Link)`/`Start(Image)`/paragraph/etc. cases inline their `parse_*`
sub-parsers, which are also exposed as the standalone definitions below. -/
def go (fuel : Nat) (matchesEnd : TagEnd → Bool) (blocks : List MdBlock)
    (events : List Event) : Option (List MdBlock × List Event) :=
  match fuel with
  | 0 => none
  | fuel + 1 =>
    match events with
    | [] => some (blocks, [])
    | e :: es =>
      match e with
      | .endTag tag =>
        if matchesEnd tag then some (blocks, es)
        else
          go fuel matchesEnd
            (pushInline blocks
              (.text ("(Unimplemented top-level item: " ++ eventDebugName e ++ ")"))) es
      | .startTag tag =>
        match tag with
        | .paragraph =>
          match go fuel (fun t => match t with | .paragraph => true | _ => false) [] es with
          | none => none
          | some (inner, rest) =>
            go fuel matchesEnd (blocks ++ [.p (flattenInline inner)]) rest
        | .heading lvl =>
          let r := parseHeadingText es ""
          go fuel matchesEnd (blocks ++ [.heading (headingLevelNum lvl) r.1]) r.2
        | .blockQuote =>
          match go fuel (fun t => match t with | .blockQuote => true | _ => false) [] es with
          | none => none
          | some (inner, rest) =>
            go fuel matchesEnd (blocks ++ [.blockQuote inner]) rest
        | .codeBlock kind =>
          let r := parseCodeText es []
          go fuel matchesEnd
            (blocks ++ [.codeBlock
              (match kind with | .indented => none | .fenced s => some s)
              (String.join r.1)]) r.2
        | .htmlBlock =>
          go fuel matchesEnd
            (blocks ++ [.p [.text ("TODO: Start Tag " ++ tagDebugName tag)]]) es
        | .list start_num =>
          match go fuel (fun t => match t with | .list _ => true | _ => false) [] es with
          | none => none
          | some (inner, rest) =>
            go fuel matchesEnd (blocks ++ [.list start_num inner]) rest
        | .item =>
          match go fuel (fun t => match t with | .item => true | _ => false) [] es with
          | none => none
          | some (inner, rest) =>
            go fuel matchesEnd (blocks ++ [.listItem inner]) rest
        | .definitionList =>
          go fuel matchesEnd
            (blocks ++ [.p [.text ("Unexpected tag: " ++ tagDebugName tag)]]) es
        | .definitionListTitle =>
          go fuel matchesEnd
            (blocks ++ [.p [.text ("Unexpected tag: " ++ tagDebugName tag)]]) es
        | .definitionListDefinition =>
          go fuel matchesEnd
            (blocks ++ [.p [.text ("Unexpected tag: " ++ tagDebugName tag)]]) es
        | .footnoteDefinition _ =>
          go fuel matchesEnd
            (blocks ++ [.p [.text ("Unexpected tag: " ++ tagDebugName tag)]]) es
        | .table =>
          go fuel matchesEnd
            (blocks ++ [.p [.text ("Unexpected tag: " ++ tagDebugName tag)]]) es
        | .tableHead =>
          go fuel matchesEnd
            (blocks ++ [.p [.text ("Unexpected tag: " ++ tagDebugName tag)]]) es
        | .tableRow =>
          go fuel matchesEnd
            (blocks ++ [.p [.text ("Unexpected tag: " ++ tagDebugName tag)]]) es
        | .tableCell =>
          go fuel matchesEnd
            (blocks ++ [.p [.text ("Unexpected tag: " ++ tagDebugName tag)]]) es
        | .emphasis =>
          match go fuel (fun t => match t with | .emphasis => true | _ => false) [] es with
          | none => none
          | some (inner, rest) =>
            go fuel matchesEnd
              (pushInline blocks (.styled styleItalics (flattenInline inner))) rest
        | .strong =>
          match go fuel (fun t => match t with | .strong => true | _ => false) [] es with
          | none => none
          | some (inner, rest) =>
            go fuel matchesEnd
              (pushInline blocks (.styled styleBold (flattenInline inner))) rest
        | .link dest_url _title _id =>
          match go fuel (fun t => match t with | .link => true | _ => false) [] es with
          | none => none
          | some (inner, rest) =>
            go fuel matchesEnd
              ((linkify dest_url (flattenInline inner)).foldl pushInline blocks) rest
        | .image dest_url title id =>
          match go fuel (fun t => match t with | .image => true | _ => false) [] es with
          | none => none
          | some (inner, rest) =>
            go fuel matchesEnd
              (pushInline blocks
                (.image ⟨dest_url, imageAlt (flattenInline inner) id dest_url, title⟩)) rest
        | .strikethrough => go fuel matchesEnd blocks es
        | .superscript => go fuel matchesEnd blocks es
        | .subscript => go fuel matchesEnd blocks es
        | .metadataBlock => go fuel matchesEnd blocks es
      | .text t => go fuel matchesEnd (pushInline blocks (.text t)) es
      | .code s => go fuel matchesEnd (pushInline blocks (.code s)) es
      | .rule => go fuel matchesEnd (blocks ++ [.hr]) es
      | .softBreak => go fuel matchesEnd (pushInline blocks (.text " ")) es
      | .hardBreak => go fuel matchesEnd (pushInline blocks (.text "\n")) es
      | .inlineMath _ =>
        go fuel matchesEnd
          (pushInline blocks
            (.text ("(Unimplemented top-level item: " ++ eventDebugName e ++ ")"))) es
      | .displayMath _ =>
        go fuel matchesEnd
          (pushInline blocks
            (.text ("(Unimplemented top-level item: " ++ eventDebugName e ++ ")"))) es
      | .html _ =>
        go fuel matchesEnd
          (pushInline blocks
            (.text ("(Unimplemented top-level item: " ++ eventDebugName e ++ ")"))) es
      | .inlineHtml _ =>
        go fuel matchesEnd
          (pushInline blocks
            (.text ("(Unimplemented top-level item: " ++ eventDebugName e ++ ")"))) es
      | .footnoteReference _ =>
        go fuel matchesEnd
          (pushInline blocks
            (.text ("(Unimplemented top-level item: " ++ eventDebugName e ++ ")"))) es
      | .taskListMarker _ =>
        go fuel matchesEnd
          (pushInline blocks
            (.text ("(Unimplemented top-level item: " ++ eventDebugName e ++ ")"))) es

/-- `Parser::parse_inline`: the block-level parser restricted to inline
content (non-pseudo blocks become diagnostics). -/
def parse_inline (fuel : Nat) (end_condition : TagEnd → Bool)
    (events : List Event) : Option (List MdInline × List Event) :=
  (go fuel end_condition [] events).map fun r => (flattenInline r.1, r.2)

/-- `Parser::parse_link`: collect the inline parts up to `End(Link)` and
duplicate the link across them. -/
def parse_link (fuel : Nat) (dest_url : String) (events : List Event) :
    Option (List MdInline × List Event) :=
  (parse_inline fuel (fun t => match t with | .link => true | _ => false) events).map
    fun r => (linkify dest_url r.1, r.2)

/-- `Parser::parse_image`: collect the inline parts up to `End(Image)` and
build the `Image` inline with the alt-text fallback chain. -/
def parse_image (fuel : Nat) (dest_url title id : String) (events : List Event) :
    Option (MdInline × List Event) :=
  (parse_inline fuel (fun t => match t with | .image => true | _ => false) events).map
    fun r => (.image ⟨dest_url, imageAlt r.1 id dest_url, title⟩, r.2)

/-- `Parser::parse_all`: the top-level entry point, with fuel ample for the
whole stream. -/
def parse_all (events : List Event) : Option (List MdBlock × List Event) :=
  go (2 * events.length + 2) (fun _ => false) [] events

/-- Whether a block is a pseudo-paragraph. -/
def isPseudo : MdBlock → Bool
  | .pseudoP _ => true
  | _ => false

/-- No two adjacent blocks of the list are both pseudo-paragraphs. -/
def noAdjPP : List MdBlock → Bool
  | a :: b :: rest => (!(isPseudo a && isPseudo b)) && noAdjPP (b :: rest)
  | _ => true

end Md

section ListHelpers

variable {α : Type} {p : α → Bool}

lemma takeWhile_append_of_all {l1 : List α} (l2 : List α)
    (h : ∀ c ∈ l1, p c = true) :
    (l1 ++ l2).takeWhile p = l1 ++ l2.takeWhile p := by
  induction l1 with
  | nil => rfl
  | cons a t ih =>
    simp only [List.cons_append,
      List.takeWhile_cons_of_pos (h a (by simp)), List.cons.injEq, true_and]
    exact ih (fun c hc => h c (by simp [hc]))

lemma dropWhile_append_of_all {l1 : List α} (l2 : List α)
    (h : ∀ c ∈ l1, p c = true) :
    (l1 ++ l2).dropWhile p = l2.dropWhile p := by
  induction l1 with
  | nil => rfl
  | cons a t ih =>
    simp only [List.cons_append, List.dropWhile_cons_of_pos (h a (by simp))]
    exact ih (fun c hc => h c (by simp [hc]))

lemma takeWhile_eq_self_of_all {l : List α} (h : ∀ c ∈ l, p c = true) :
    l.takeWhile p = l := by
  induction l with
  | nil => rfl
  | cons a t ih =>
    rw [List.takeWhile_cons_of_pos (h a (by simp))]
    rw [ih (fun c hc => h c (by simp [hc]))]

lemma dropWhile_eq_nil_of_all {l : List α} (h : ∀ c ∈ l, p c = true) :
    l.dropWhile p = [] := by
  induction l with
  | nil => rfl
  | cons a t ih =>
    rw [List.dropWhile_cons_of_pos (h a (by simp))]
    exact ih (fun c hc => h c (by simp [hc]))

lemma splitNL_eq_single {cs : List Char} (h : ∀ c ∈ cs, c ≠ '\n') :
    Gemtext.splitNL cs = [cs] := by
  induction cs with
  | nil => rfl
  | cons a t ih =>
    rw [Gemtext.splitNL, if_neg (by exact_mod_cast h a (by simp))]
    rw [ih (fun c hc => h c (by simp [hc]))]

lemma splitNL_append_cons {l : List Char} (r : List Char)
    (h : ∀ c ∈ l, c ≠ '\n') :
    Gemtext.splitNL (l ++ '\n' :: r) = l :: Gemtext.splitNL r := by
  induction l with
  | nil => simp [Gemtext.splitNL]
  | cons a t ih =>
    rw [List.cons_append, Gemtext.splitNL, if_neg (by exact_mod_cast h a (by simp))]
    rw [ih (fun c hc => h c (by simp [hc]))]

end ListHelpers

/-- C1: the spec says the hypertext loader rejects a response whose declared
content length exceeds the configured ceiling with a `ResponseTooLarge`
error before reading the body.  The code keeps the ceiling in `max_size` but
never consults it (`// TODO: Check too big.`): a success response declaring
200 MiB — twice the default 100 MiB ceiling — is fetched and its body read,
and no input whatsoever produces a too-large error from the fetch. -/
theorem c1_no_size_check :
    (Net.HttpLoader.default.fetchResponse "http://example.com/big"
        ⟨200, some "text/gemini", some 209715200, "body"⟩
      = (.ok ⟨"http://example.com/big", .httpStatus 200, some 209715200,
              some ⟨"text", "gemini", ""⟩, .text "body"⟩, 1))
    ∧ ∀ (cfg : Net.HttpLoader) (url : String) (resp : Net.HttpResponse)
        (actual limit : Nat),
        (cfg.fetchResponse url resp).1 ≠ .error (.responseTooBig actual limit) := by
  refine ⟨rfl, ?_⟩
  intro cfg url resp actual limit h
  obtain ⟨code, cth, clen, body⟩ := resp
  unfold Net.HttpLoader.fetchResponse at h
  cases cth with
  | none =>
    dsimp only at h
    by_cases hok : (Net.Status.httpStatus code).ok = true
    · simp [hok] at h
    · simp [hok] at h
  | some s =>
    dsimp only at h
    cases hm : Net.mimeParse s with
    | none => simp [hm] at h
    | some m =>
      simp only [hm] at h
      by_cases hok : (Net.Status.httpStatus code).ok = true
      · by_cases hany :
          cfg.accept_content_types.any (fun mt => mt.essence = m.essence) = true
        · simp [hok, hany] at h
        · simp [hok, hany] at h
      · simp [hok] at h

/-- Witness for C1: the no-too-large-error fact applied at a concrete
response. -/
theorem c1_no_size_check_witness :
    (Net.HttpLoader.default.fetchResponse "http://w1/"
      ⟨200, none, none, ""⟩).1 ≠ .error (.responseTooBig 5 6) :=
  c1_no_size_check.2 Net.HttpLoader.default "http://w1/" ⟨200, none, none, ""⟩ 5 6

/-- C2 counterexample: the claim says every non-success response is returned
with its status without the content-type check, but a 404 whose content-type
header does not parse as a media type (`"garbage"`) makes the fetch fail
with a mime parse error — the header is parsed before the status branch. -/
theorem c2_counterexample_404_bad_mime :
    (Net.HttpLoader.default.fetchResponse "http://x/"
        ⟨404, some "garbage", none, "b"⟩).1 = .error .mimeParseError
    ∧ ∀ r, (Net.HttpLoader.default.fetchResponse "http://x/"
        ⟨404, some "garbage", none, "b"⟩).1 ≠ .ok r := by
  have h1 : (Net.HttpLoader.default.fetchResponse "http://x/"
      ⟨404, some "garbage", none, "b"⟩).1 = .error .mimeParseError := rfl
  exact ⟨h1, fun r hr => by rw [h1] at hr; exact Except.noConfusion hr⟩

/-- C2 (amended): for success statuses (200-299) a missing content-type
header fails with `MissingContentType` and a parsed content-type whose
essence matches no accepted type fails with `UnrequestedContentType`, both
with zero body reads; a non-success response whose content-type header is
absent, or parses as a media type, is returned with its status (and the
accept-list check is not applied); a header that fails to parse as a media
type fails the fetch with a mime parse error regardless of status. -/
theorem c2_content_negotiation :
    (∀ (cfg : Net.HttpLoader) (url : String) (resp : Net.HttpResponse),
       (Net.Status.httpStatus resp.statusCode).ok = true →
       resp.contentTypeHeader = none →
       cfg.fetchResponse url resp = (.error .missingContentType, 0))
    ∧ (∀ (cfg : Net.HttpLoader) (url : String) (resp : Net.HttpResponse)
         (s : String) (m : Net.Mime),
       (Net.Status.httpStatus resp.statusCode).ok = true →
       resp.contentTypeHeader = some s →
       Net.mimeParse s = some m →
       cfg.accept_content_types.all (fun mt => mt.essence ≠ m.essence) →
       cfg.fetchResponse url resp = (.error (.unrequestedContentType m), 0))
    ∧ (∀ (cfg : Net.HttpLoader) (url : String) (resp : Net.HttpResponse),
       (Net.Status.httpStatus resp.statusCode).ok = false →
       resp.contentTypeHeader = none →
       cfg.fetchResponse url resp
         = (.ok ⟨url, .httpStatus resp.statusCode, resp.contentLength, none,
                 .text resp.bodyText⟩, 1))
    ∧ (∀ (cfg : Net.HttpLoader) (url : String) (resp : Net.HttpResponse)
         (s : String) (m : Net.Mime),
       (Net.Status.httpStatus resp.statusCode).ok = false →
       resp.contentTypeHeader = some s →
       Net.mimeParse s = some m →
       cfg.fetchResponse url resp
         = (.ok ⟨url, .httpStatus resp.statusCode, resp.contentLength, some m,
                 .text resp.bodyText⟩, 1))
    ∧ (∀ (cfg : Net.HttpLoader) (url : String) (resp : Net.HttpResponse)
         (s : String),
       resp.contentTypeHeader = some s →
       Net.mimeParse s = none →
       cfg.fetchResponse url resp = (.error .mimeParseError, 0)) := by
  refine ⟨?_, ?_, ?_, ?_, ?_⟩
  · intro cfg url resp hok hnone
    unfold Net.HttpLoader.fetchResponse
    simp [hnone, hok]
  · intro cfg url resp s m hok hsome hparse hnomatch
    unfold Net.HttpLoader.fetchResponse
    have : cfg.accept_content_types.any (fun mt => mt.essence = m.essence) = false := by
      simp only [List.all_eq_true, decide_eq_true_eq] at hnomatch
      simp only [List.any_eq_false, decide_eq_true_eq]
      exact hnomatch
    simp [hsome, hparse, hok, this]
  · intro cfg url resp hnok hnone
    unfold Net.HttpLoader.fetchResponse
    simp [hnone, hnok]
  · intro cfg url resp s m hnok hsome hparse
    unfold Net.HttpLoader.fetchResponse
    simp [hsome, hparse, hnok]
  · intro cfg url resp s hsome hparse
    unfold Net.HttpLoader.fetchResponse
    simp [hsome, hparse]

/-- Witness for C2: the amended parts applied at concrete responses — a 204
without content-type, a 200 with an unaccepted `image/png`, a 404 without
content-type, a 404 with `text/html`, and a 500 with an unparseable header. -/
theorem c2_content_negotiation_witness :
    Net.HttpLoader.default.fetchResponse "http://w2/" ⟨204, none, some 1, "b"⟩
      = (.error .missingContentType, 0)
    ∧ Net.HttpLoader.default.fetchResponse "http://w2/"
        ⟨200, some "image/png", none, "b"⟩
      = (.error (.unrequestedContentType ⟨"image", "png", ""⟩), 0)
    ∧ Net.HttpLoader.default.fetchResponse "http://w2/" ⟨404, none, none, "nf"⟩
      = (.ok ⟨"http://w2/", .httpStatus 404, none, none, .text "nf"⟩, 1)
    ∧ Net.HttpLoader.default.fetchResponse "http://w2/"
        ⟨404, some "text/html", none, "nf"⟩
      = (.ok ⟨"http://w2/", .httpStatus 404, none, some ⟨"text", "html", ""⟩,
              .text "nf"⟩, 1)
    ∧ Net.HttpLoader.default.fetchResponse "http://w2/"
        ⟨500, some "???", none, "e"⟩ = (.error .mimeParseError, 0) :=
  ⟨c2_content_negotiation.1 _ _ ⟨204, none, some 1, "b"⟩ (by decide) rfl,
   c2_content_negotiation.2.1 _ _ ⟨200, some "image/png", none, "b"⟩ "image/png"
     ⟨"image", "png", ""⟩ (by decide) rfl (by decide) (by decide),
   c2_content_negotiation.2.2.1 _ _ ⟨404, none, none, "nf"⟩ (by decide) rfl,
   c2_content_negotiation.2.2.2.1 _ _ ⟨404, some "text/html", none, "nf"⟩
     "text/html" ⟨"text", "html", ""⟩ (by decide) rfl (by decide),
   c2_content_negotiation.2.2.2.2 _ _ ⟨500, some "???", none, "e"⟩ "???" rfl
     (by decide)⟩

/-- C4: the navigation scenario — back-history `[A]`, `goto B`, `go_back`,
`goto B` again — produces exactly the spec's history states, and in general
`goto_url` pops the forward-history top when it equals the target and clears
the forward history otherwise, while always pushing the target onto the back
history. -/
theorem c4_navigation_history :
    ∀ (loc A B : String),
      ((Net.Tab.mk loc [A] []).goto_url B).history = [A, B]
      ∧ ((Net.Tab.mk loc [A] []).goto_url B).forward_history = []
      ∧ (((Net.Tab.mk loc [A] []).goto_url B).go_back).history = [A]
      ∧ (((Net.Tab.mk loc [A] []).goto_url B).go_back).forward_history = [B]
      ∧ ((((Net.Tab.mk loc [A] []).goto_url B).go_back).goto_url B).history = [A, B]
      ∧ ((((Net.Tab.mk loc [A] []).goto_url B).go_back).goto_url B).forward_history = []
      ∧ (∀ (t : Net.Tab) (url : String),
          (t.goto_url url).forward_history
            = (if t.forward_history.getLast? = some url
               then t.forward_history.dropLast else [])
          ∧ (t.goto_url url).history = t.history ++ [url]) := by
  intro loc A B
  refine ⟨?_, ?_, ?_, ?_, ?_, ?_, ?_⟩
  · simp [Net.Tab.goto_url, Net.Tab.load_url]
  · simp [Net.Tab.goto_url, Net.Tab.load_url]
  · simp [Net.Tab.goto_url, Net.Tab.load_url, Net.Tab.go_back]
  · simp [Net.Tab.goto_url, Net.Tab.load_url, Net.Tab.go_back]
  · simp [Net.Tab.goto_url, Net.Tab.load_url, Net.Tab.go_back]
  · simp [Net.Tab.goto_url, Net.Tab.load_url, Net.Tab.go_back]
  · intro t url
    constructor
    · by_cases h : t.forward_history.getLast? = some url
      · simp [Net.Tab.goto_url, Net.Tab.load_url, h]
      · simp [Net.Tab.goto_url, Net.Tab.load_url, h]
    · by_cases h : t.forward_history.getLast? = some url
      · simp [Net.Tab.goto_url, Net.Tab.load_url, h]
      · simp [Net.Tab.goto_url, Net.Tab.load_url, h]

/-- Witness for C4: the scenario at the concrete URLs `"a://1"`, `"b://2"`. -/
theorem c4_navigation_history_witness :
    ((Net.Tab.mk "" ["a://1"] []).goto_url "b://2").history = ["a://1", "b://2"]
    ∧ ((((Net.Tab.mk "" ["a://1"] []).goto_url "b://2").go_back).goto_url
        "b://2").forward_history = [] :=
  ⟨(c4_navigation_history "" "a://1" "b://2").1,
   (c4_navigation_history "" "a://1" "b://2").2.2.2.2.2.1⟩

/-- C5: the spec (and the source's own `// Symlinks not supported.` comment)
says a file URL resolving to a symbolic link is treated as not-found.  But
the loader stats with `tokio::fs::metadata`, which traverses symbolic links,
so a symlink to a regular text file is followed and served: fetching
`file:///a.txt` over a filesystem where `/a.txt` is a symlink to the regular
file `/b.txt` returns the target's contents with an `Ok` status, not the
synthesized not-found resource. -/
theorem c5_symlink_followed :
    Net.FileLoader.fetchUrl
        [("/a.txt", .symlink "/b.txt"), ("/b.txt", .file 5 "hello")]
        ⟨"file", ["a.txt"]⟩
      = .ok ⟨"file:///a.txt", .fileStatus .ok, none, some ⟨"text", "plain", ""⟩,
             .text "hello"⟩
    ∧ Net.FileLoader.fetchUrl
        [("/a.txt", .symlink "/b.txt"), ("/b.txt", .file 5 "hello")]
        ⟨"file", ["a.txt"]⟩
      ≠ .ok (Net.not_found ⟨"file", ["a.txt"]⟩) := by
  have h1 : Net.FileLoader.fetchUrl
      [("/a.txt", .symlink "/b.txt"), ("/b.txt", .file 5 "hello")]
      ⟨"file", ["a.txt"]⟩
      = .ok ⟨"file:///a.txt", .fileStatus .ok, none, some ⟨"text", "plain", ""⟩,
             .text "hello"⟩ := rfl
  refine ⟨h1, ?_⟩
  rw [h1]
  intro h
  injection h with h2
  simp [Net.not_found] at h2

/-- Totality of the gemtext line loop in non-strict mode: the only error
return is guarded by `self.strict`. -/
lemma parseLoop_false_ok :
    ∀ (lines : List String) (code : Option Gemtext.CodeFenceSt)
      (quote : Option (List String)) (blocks : List Gemtext.Block),
      ∃ bs, Gemtext.parseLoop false code quote blocks lines = .ok bs := by
  intro lines
  induction lines with
  | nil =>
    intro code quote blocks
    cases code <;> exact ⟨_, rfl⟩
  | cons line rest ih =>
    intro code quote blocks
    simp only [Gemtext.parseLoop]
    by_cases h1 : Gemtext.strStartsWith line "```" = true
    · simp only [h1, if_true]
      cases code with
      | some existing =>
        dsimp only
        rw [if_neg (by simp)]
        exact ih _ _ _
      | none => exact ih _ _ _
    · rw [if_neg h1]
      cases code with
      | some cf => exact ih _ _ _
      | none =>
        by_cases h2 : Gemtext.strStartsWith line ">" = true
        · rw [if_pos h2]; exact ih _ _ _
        · rw [if_neg h2]
          cases hH : Gemtext.HeaderLine.parse line with
          | some hl => simp only [hH]; exact ih _ _ _
          | none =>
            simp only [hH]
            cases hL : Gemtext.LinkLine.parse line with
            | some lk => simp only [hL]; exact ih _ _ _
            | none =>
              simp only [hL]
              cases hI : Gemtext.ListItem.parse line with
              | some it => simp only [hI]; exact ih _ _ _
              | none => simp only [hI]; exact ih _ _ _

/-- C3: in default (non-strict) mode the markup parser returns `Ok` on every
input (it is a total function, so it cannot panic, and no non-strict path
produces an error), and a code fence or block quote still open at the end of
the input is flushed as a complete `CodeFence` / `BlockQuote` block. -/
theorem c3_parse_total_and_flushes_open_blocks :
    (∀ text : String, ∃ bs, Gemtext.Options.parse ⟨false⟩ text = .ok bs)
    ∧ (∀ (strict : Bool) (cf : Gemtext.CodeFenceSt) (quote : Option (List String))
         (blocks : List Gemtext.Block),
        Gemtext.parseLoop strict (some cf) quote blocks []
          = .ok ((blocks ++ [.codeFence cf.meta cf.lines]) ++ Gemtext.quoteFlush quote))
    ∧ (∀ (strict : Bool) (q : List String) (blocks : List Gemtext.Block),
        Gemtext.parseLoop strict none (some q) blocks []
          = .ok (blocks ++ [.blockQuote (q.map Gemtext.Block.text)])) :=
  ⟨fun _ => parseLoop_false_ok _ _ _ _,
   fun _ _ _ _ => rfl,
   fun _ _ _ => rfl⟩

/-- Witness for C3: totality at an input with an unterminated code fence,
and the flush facts at concrete open states. -/
theorem c3_parse_total_witness :
    (∃ bs, Gemtext.Options.parse ⟨false⟩ "```rust\nfn main()" = .ok bs)
    ∧ Gemtext.parseLoop true (some ⟨"rust", ["fn main()"]⟩) none []
        [] = .ok [.codeFence "rust" ["fn main()"]]
    ∧ Gemtext.parseLoop true none (some ["a quote"]) [] []
        = .ok [.blockQuote [.text "a quote"]] :=
  ⟨c3_parse_total_and_flushes_open_blocks.1 "```rust\nfn main()",
   c3_parse_total_and_flushes_open_blocks.2.1 true ⟨"rust", ["fn main()"]⟩ none [],
   c3_parse_total_and_flushes_open_blocks.2.2 true ["a quote"] []⟩

/-- C9 counterexample: the claim says only leading spaces of a code-fence
line are replaced and later spaces are left unchanged, but parsing a fenced
line `" a b"` replaces all three spaces (the `replacen` call counts
occurrences anywhere in the line): the stored line is `"\u{a0}a\u{a0}b"`,
not the claimed `"\u{a0}a b"`. -/
theorem c9_counterexample_nonleading_space :
    Gemtext.Options.parse ⟨false⟩ "```\n a b"
      = .ok [.codeFence "" ["\u00A0a\u00A0b"]]
    ∧ ("\u00A0a\u00A0b" : String) ≠ "\u00A0a b" := by
  exact ⟨rfl, by decide⟩

/-- Count of spaces among the first `i` characters. -/
def spacesBefore (cs : List Char) (i : Nat) : Nat := (cs.take i).count ' '

lemma replacenChars_length (cs : List Char) (n : Nat) :
    (Gemtext.replacenChars cs n).length = cs.length := by
  induction cs generalizing n with
  | nil => cases n <;> rfl
  | cons c t ih =>
    cases n with
    | zero => rfl
    | succ n =>
      by_cases hc : c = ' '
      · simp [Gemtext.replacenChars, hc, ih]
      · simp [Gemtext.replacenChars, hc, ih]

lemma replacenChars_get (cs : List Char) (n i : Nat) (h : i < cs.length)
    (h2 : i < (Gemtext.replacenChars cs n).length) :
    (Gemtext.replacenChars cs n).get ⟨i, h2⟩
      = if cs.get ⟨i, h⟩ = ' ' ∧ spacesBefore cs i < n then Gemtext.nbsp
        else cs.get ⟨i, h⟩ := by
  induction cs generalizing n i with
  | nil => exact absurd h (by simp)
  | cons c t ih =>
    cases n with
    | zero =>
      simp only [Gemtext.replacenChars]
      rw [if_neg (by simp)]
    | succ n =>
      by_cases hc : c = ' '
      · subst hc
        cases i with
        | zero =>
          simp [Gemtext.replacenChars, spacesBefore]
        | succ i =>
          have ht : i < t.length := by simpa using h
          have ht2 : i < (Gemtext.replacenChars t n).length := by
            rw [replacenChars_length]; exact ht
          have hL : Gemtext.replacenChars (' ' :: t) (n + 1)
              = Gemtext.nbsp :: Gemtext.replacenChars t n := by
            simp [Gemtext.replacenChars]
          have hget : (Gemtext.replacenChars (' ' :: t) (n + 1)).get ⟨i + 1, h2⟩
              = (Gemtext.replacenChars t n).get ⟨i, ht2⟩ := by
            simp [hL]
          rw [hget, ih n i ht ht2]
          have hsp : spacesBefore (' ' :: t) (i + 1) = spacesBefore t i + 1 := by
            simp [spacesBefore, List.count_cons]
          rw [hsp]
          have hgc : (' ' :: t).get ⟨i + 1, h⟩ = t.get ⟨i, ht⟩ := rfl
          rw [hgc]
          by_cases hg : t.get ⟨i, ht⟩ = ' ' <;>
            by_cases hlt : spacesBefore t i < n <;>
            simp [hg, hlt, Nat.succ_lt_succ_iff]
      · cases i with
        | zero =>
          simp [Gemtext.replacenChars, hc, spacesBefore]
        | succ i =>
          have ht : i < t.length := by simpa using h
          have ht2 : i < (Gemtext.replacenChars t (n + 1)).length := by
            rw [replacenChars_length]; exact ht
          have hL : Gemtext.replacenChars (c :: t) (n + 1)
              = c :: Gemtext.replacenChars t (n + 1) := by
            simp [Gemtext.replacenChars, hc]
          have hget : (Gemtext.replacenChars (c :: t) (n + 1)).get ⟨i + 1, h2⟩
              = (Gemtext.replacenChars t (n + 1)).get ⟨i, ht2⟩ := by
            simp [hL]
          rw [hget, ih (n + 1) i ht ht2]
          have hsp : spacesBefore (c :: t) (i + 1) = spacesBefore t i := by
            simp [spacesBefore, List.count_cons, hc]
          rw [hsp]
          have hgc : (c :: t).get ⟨i + 1, h⟩ = t.get ⟨i, ht⟩ := rfl
          rw [hgc]

/-- The first character of a string that starts with `" "` is a space. -/
lemma data_of_startsWith_space {line : String}
    (h : Gemtext.strStartsWith line " " = true) :
    ∃ tl, line.data = ' ' :: tl := by
  unfold Gemtext.strStartsWith at h
  cases hld : line.data with
  | nil => rw [hld] at h; simp [List.isPrefixOf] at h
  | cons c tl =>
    rw [hld] at h
    have hbeq : (' ' == c) = true := by
      simpa [List.isPrefixOf] using h
    have hc : ' ' = c := eq_of_beq hbeq
    subst hc
    exact ⟨tl, hld ▸ rfl⟩

/-- A line starting with a space cannot start with the code-fence marker. -/
lemma strStartsWith_space_not_guard {line : String}
    (h : Gemtext.strStartsWith line " " = true) :
    Gemtext.strStartsWith line "```" = false := by
  obtain ⟨tl, hld⟩ := data_of_startsWith_space h
  unfold Gemtext.strStartsWith
  rw [hld]
  simp [List.isPrefixOf]

/-- C9 (amended): for a line inside an open code fence that starts with a
space, the parser stores the line with its first at most 5 space characters
— counted anywhere in the line, not only the leading ones — replaced by
U+00A0; every other character, and every space after the fifth, is kept
unchanged (characterized position by position). -/
theorem c9_code_fence_space_replacement :
    (∀ (strict : Bool) (cf : Gemtext.CodeFenceSt) (quote : Option (List String))
       (blocks : List Gemtext.Block) (line : String) (rest : List String),
      Gemtext.strStartsWith line " " = true →
      Gemtext.parseLoop strict (some cf) quote blocks (line :: rest)
        = Gemtext.parseLoop strict
            (some ⟨cf.meta, cf.lines ++ [Gemtext.rustReplacen line 5]⟩)
            quote blocks rest)
    ∧ (∀ (cs : List Char) (n : Nat),
        (Gemtext.replacenChars cs n).length = cs.length)
    ∧ (∀ (cs : List Char) (n i : Nat) (h : i < cs.length)
         (h2 : i < (Gemtext.replacenChars cs n).length),
        (Gemtext.replacenChars cs n).get ⟨i, h2⟩
          = if cs.get ⟨i, h⟩ = ' ' ∧ spacesBefore cs i < n then Gemtext.nbsp
            else cs.get ⟨i, h⟩) := by
  refine ⟨?_, replacenChars_length, replacenChars_get⟩
  intro strict cf quote blocks line rest hsp
  obtain ⟨tl, hld⟩ := data_of_startsWith_space hsp
  have hcode : Gemtext.strStartsWith line "```" = false := by
    unfold Gemtext.strStartsWith
    rw [hld]
    simp [List.isPrefixOf]
  simp only [Gemtext.parseLoop, hcode, Bool.false_eq_true, if_false, hsp, if_true]

/-- Witness for C9: the fence-line step applied at the concrete line `" x y"`
(whose second space, a non-leading one, is also replaced). -/
theorem c9_code_fence_space_replacement_witness :
    Gemtext.parseLoop false (some ⟨"", []⟩) none [] [" x y"]
      = Gemtext.parseLoop false
          (some ⟨"", [Gemtext.rustReplacen " x y" 5]⟩) none [] [] :=
  c9_code_fence_space_replacement.1 false ⟨"", []⟩ none [] " x y" [] (by decide)

/-- The header regex on a line of `n` hashes, `m` spaces and a remainder
that neither starts with a space nor contains a newline. -/
lemma headerParseChars_pattern (n m : Nat) (td : List Char)
    (hn : 1 ≤ n) (hm : 1 ≤ m) (hnl : '\n' ∉ td) (hhd : td.head? ≠ some ' ') :
    Gemtext.headerParseChars (List.replicate n '#' ++ (List.replicate m ' ' ++ td))
      = some (n, ⟨td⟩) := by
  obtain ⟨n', rfl⟩ : ∃ k, n = k + 1 := ⟨n - 1, by omega⟩
  obtain ⟨m', rfl⟩ : ∃ k, m = k + 1 := ⟨m - 1, by omega⟩
  have hsp : (List.replicate (m' + 1) ' ' ++ td).takeWhile (fun c => decide (c = '#'))
      = [] := by
    rw [List.replicate_succ, List.cons_append,
      List.takeWhile_cons_of_neg (by simp)]
  have hsp2 : (List.replicate (m' + 1) ' ' ++ td).dropWhile (fun c => decide (c = '#'))
      = List.replicate (m' + 1) ' ' ++ td := by
    rw [List.replicate_succ, List.cons_append,
      List.dropWhile_cons_of_neg (by simp)]
  have htd : td.takeWhile (fun c => decide (c = ' ')) = [] := by
    cases htdc : td with
    | nil => rfl
    | cons c tl =>
      rw [htdc] at hhd
      rw [List.takeWhile_cons_of_neg (by simp_all)]
  have htd2 : td.dropWhile (fun c => decide (c = ' ')) = td := by
    cases htdc : td with
    | nil => rfl
    | cons c tl =>
      rw [htdc] at hhd
      rw [List.dropWhile_cons_of_neg (by simp_all)]
  have hashAll : ∀ c ∈ List.replicate (n' + 1) '#', (fun c => decide (c = '#')) c = true := by
    intro c hc
    simp [List.mem_replicate] at hc
    simp [hc]
  have spAll : ∀ c ∈ List.replicate (m' + 1) ' ', (fun c => decide (c = ' ')) c = true := by
    intro c hc
    simp [List.mem_replicate] at hc
    simp [hc]
  have e1 : (List.replicate (n' + 1) '#'
      ++ (List.replicate (m' + 1) ' ' ++ td)).takeWhile (fun c => decide (c = '#'))
      = List.replicate (n' + 1) '#' := by
    rw [takeWhile_append_of_all _ hashAll, hsp, List.append_nil]
  have e2 : (List.replicate (n' + 1) '#'
      ++ (List.replicate (m' + 1) ' ' ++ td)).dropWhile (fun c => decide (c = '#'))
      = List.replicate (m' + 1) ' ' ++ td := by
    rw [dropWhile_append_of_all _ hashAll, hsp2]
  have e3 : (List.replicate (m' + 1) ' ' ++ td).takeWhile (fun c => decide (c = ' '))
      = List.replicate (m' + 1) ' ' := by
    rw [takeWhile_append_of_all _ spAll, htd, List.append_nil]
  have e4 : (List.replicate (m' + 1) ' ' ++ td).dropWhile (fun c => decide (c = ' '))
      = td := by
    rw [dropWhile_append_of_all _ spAll, htd2]
  unfold Gemtext.headerParseChars
  simp only [e1, e2, e3, e4, List.length_replicate]
  rw [if_pos ⟨by omega, by omega, hnl⟩]

/-- The last element of a list is an element of it, phrased for `getLast?`. -/
lemma getLast?_ne_of_not_mem {α : Type} [DecidableEq α] {l : List α} {a : α}
    (h : a ∉ l) : l.getLast? ≠ some a := by
  induction l with
  | nil => simp
  | cons c tl ih =>
    cases tl with
    | nil =>
      intro he
      simp only [List.getLast?_singleton, Option.some.injEq] at he
      exact h (by simp [he])
    | cons d tl2 =>
      rw [List.getLast?_cons_cons]
      exact ih (fun hm => h (by simp [hm]))

/-- A string whose first character differs from a pattern's first character
does not start with that pattern. -/
lemma strStartsWith_head_ne {s : String} (pat : String) (c : Char)
    (tl : List Char) (hs : s.data = c :: tl) (p : Char) (ptl : List Char)
    (hp : pat.data = p :: ptl) (hne : p ≠ c) :
    Gemtext.strStartsWith s pat = false := by
  unfold Gemtext.strStartsWith
  rw [hs, hp]
  show List.isPrefixOf (p :: ptl) (c :: tl) = false
  simp only [List.isPrefixOf, Bool.and_eq_false_iff]
  left
  cases hb : (p == c) with
  | false => rfl
  | true => exact absurd (eq_of_beq hb) hne

/-- C8: a line of `n ≥ 1` hash marks, one or more spaces, and remainder text
(the text taken maximally: it does not begin with a further space, and being
a line it contains no newline and no trailing carriage return) parses as a
heading whose 8-bit stored level is `n % 256` and whose text is exactly the
remainder, both at the `HeaderLine` pattern and through the full parser. -/
theorem c8_heading_level_mod256 :
    ∀ (n m : Nat) (t : String),
      1 ≤ n → 1 ≤ m →
      '\n' ∉ t.data → t.data.head? ≠ some ' ' → t.data.getLast? ≠ some '\r' →
      Gemtext.HeaderLine.parse
          ⟨List.replicate n '#' ++ (List.replicate m ' ' ++ t.data)⟩
        = some ⟨n % 256, t⟩
      ∧ Gemtext.Options.parse ⟨false⟩
          ⟨List.replicate n '#' ++ (List.replicate m ' ' ++ t.data)⟩
        = .ok [.heading (n % 256) t] := by
  intro n m t hn hm hnl hhd hcr
  have hparse : Gemtext.HeaderLine.parse
      ⟨List.replicate n '#' ++ (List.replicate m ' ' ++ t.data)⟩
      = some ⟨n % 256, t⟩ := by
    unfold Gemtext.HeaderLine.parse
    rw [show (⟨List.replicate n '#' ++ (List.replicate m ' ' ++ t.data)⟩ : String).data
        = List.replicate n '#' ++ (List.replicate m ' ' ++ t.data) from rfl]
    rw [headerParseChars_pattern n m t.data hn hm hnl hhd]
    rfl
  refine ⟨hparse, ?_⟩
  obtain ⟨n', rfl⟩ : ∃ k, n = k + 1 := ⟨n - 1, by omega⟩
  obtain ⟨m', rfl⟩ : ∃ k, m = k + 1 := ⟨m - 1, by omega⟩
  set line : String := ⟨List.replicate (n' + 1) '#' ++ (List.replicate (m' + 1) ' ' ++ t.data)⟩
    with hline
  have hdata : line.data
      = '#' :: (List.replicate n' '#' ++ (List.replicate (m' + 1) ' ' ++ t.data)) := by
    rw [hline]
    simp [List.replicate_succ]
  have hnl2 : ∀ c ∈ line.data, c ≠ '\n' := by
    intro c hc
    rw [hline] at hc
    simp only [List.mem_append, List.mem_replicate] at hc
    rcases hc with (⟨_, rfl⟩ | ⟨_, rfl⟩ | hc)
    · decide
    · decide
    · exact fun he => hnl (he ▸ hc)
  have hlast_eq : line.data.getLast? = t.data.getLast?.or (some ' ') := by
    rw [hline]
    show (List.replicate (n' + 1) '#'
        ++ (List.replicate (m' + 1) ' ' ++ t.data)).getLast? = _
    rw [List.getLast?_append, List.getLast?_append]
    rw [show (List.replicate (m' + 1) ' ').getLast? = some ' ' by
      simp [List.getLast?_replicate]]
    rw [show (List.replicate (n' + 1) '#').getLast? = some '#' by
      simp [List.getLast?_replicate]]
    cases t.data.getLast? <;> simp [Option.or]
  have hlast_n : line.data.getLast? ≠ some '\n' := by
    rw [hlast_eq]
    cases ht : t.data.getLast? with
    | none => simp [Option.or]
    | some x =>
      simp only [Option.or]
      intro he
      injection he with hx
      exact getLast?_ne_of_not_mem hnl (hx ▸ ht)
  have hlast_r : line.data.getLast? ≠ some '\r' := by
    rw [hlast_eq]
    cases ht : t.data.getLast? with
    | none => simp [Option.or]
    | some x =>
      simp only [Option.or]
      intro he
      injection he with hx
      exact hcr (hx ▸ ht)
  have hlines : Gemtext.rustLines line = [line] := by
    simp only [Gemtext.rustLines]
    rw [if_neg (show ¬ line.data = [] by rw [hdata]; simp)]
    rw [splitNL_eq_single hnl2, if_neg hlast_n]
    simp only [List.map_cons, List.map_nil]
    congr 1
    show (⟨Gemtext.stripCRChars line.data⟩ : String) = line
    unfold Gemtext.stripCRChars
    rw [if_neg hlast_r]
  have hguard : Gemtext.strStartsWith line "```" = false :=
    strStartsWith_head_ne "```" '#' _ hdata '`' ['`', '`'] rfl (by decide)
  have hquote : Gemtext.strStartsWith line ">" = false :=
    strStartsWith_head_ne ">" '#' _ hdata '>' [] rfl (by decide)
  unfold Gemtext.Options.parse
  rw [hlines]
  simp only [Gemtext.parseLoop, hguard, hquote, Bool.false_eq_true, if_false]
  simp [hparse, Gemtext.parseLoop, Gemtext.quoteFlush]

/-- Witness for C8: one hash, one space, text `"Title"` — the spec's own
example `parse("# Title") = [Heading{level:1, text:"Title"}]`. -/
theorem c8_heading_level_mod256_witness :
    Gemtext.HeaderLine.parse
        ⟨List.replicate 1 '#' ++ (List.replicate 1 ' ' ++ "Title".data)⟩
      = some ⟨1 % 256, "Title"⟩
    ∧ Gemtext.Options.parse ⟨false⟩
        ⟨List.replicate 1 '#' ++ (List.replicate 1 ' ' ++ "Title".data)⟩
      = .ok [.heading (1 % 256) "Title"] :=
  c8_heading_level_mod256 1 1 "Title" (by decide) (by decide) (by decide)
    (by decide) (by decide)

/-- `takeWhile` stops at a failing head. -/
lemma takeWhile_eq_nil_of_head {l : List α} {p : α → Bool}
    (h : ∀ c ∈ l.head?, p c = false) : l.takeWhile p = [] := by
  cases l with
  | nil => rfl
  | cons a t => exact List.takeWhile_cons_of_neg (by simp [h a (by simp)])

/-- `dropWhile` keeps a list whose head fails the predicate. -/
lemma dropWhile_eq_self_of_head {l : List α} {p : α → Bool}
    (h : ∀ c ∈ l.head?, p c = false) : l.dropWhile p = l := by
  cases l with
  | nil => rfl
  | cons a t => exact List.dropWhile_cons_of_neg (by simp [h a (by simp)])

/-- Percent-escaping spaces is the identity on space-free strings. -/
lemma escapeSpaces_eq_self {s : String} (h : ' ' ∉ s.data) :
    Net.escapeSpaces s = s := by
  unfold Net.escapeSpaces
  have hd : ∀ (l : List Char), ' ' ∉ l →
      l.flatMap (fun c => if c = ' ' then ['%', '2', '0'] else [c]) = l := by
    intro l hl
    induction l with
    | nil => rfl
    | cons a t ih =>
      have ha : a ≠ ' ' := fun he => hl (by simp [he])
      simp only [List.flatMap_cons, if_neg ha, List.singleton_append,
        List.cons.injEq, true_and]
      exact ih (fun hm => hl (by simp [hm]))
  rw [hd s.data h]

/-- The link-line regex on `"=> " ++ name ++ "/"` for a nonempty
whitespace-free `name`: the url is `name ++ "/"` and the text is empty. -/
lemma linkParse_escaped_dir_line (ls : String)
    (hnws : ∀ c ∈ ls.data, Gemtext.isWs c = false) :
    Gemtext.LinkLine.parse ⟨'=' :: '>' :: ' ' :: (ls.data ++ ['/'])⟩
      = some (⟨ls.data ++ ['/']⟩, "") := by
  have hall : ∀ c ∈ ls.data ++ ['/'], Gemtext.isWs c = false := by
    intro c hc
    rcases List.mem_append.mp hc with hc | hc
    · exact hnws c hc
    · simp at hc; subst hc; decide
  have hhead : ∀ c ∈ (ls.data ++ ['/']).head?, Gemtext.isWs c = false := by
    intro c hc
    exact hall c (List.mem_of_mem_head? hc)
  have hred : Gemtext.LinkLine.parse ⟨'=' :: '>' :: ' ' :: (ls.data ++ ['/'])⟩
      = (if ((' ' :: (ls.data ++ ['/'])).takeWhile Gemtext.isWs).length = 0 then none
         else if (((' ' :: (ls.data ++ ['/'])).dropWhile Gemtext.isWs).takeWhile
             (fun c => ¬ Gemtext.isWs c)).length = 0 then none
         else if '\n' ∈ Gemtext.trimChars
             (((' ' :: (ls.data ++ ['/'])).dropWhile Gemtext.isWs).dropWhile
               (fun c => ¬ Gemtext.isWs c)) then none
         else some
           (⟨((' ' :: (ls.data ++ ['/'])).dropWhile Gemtext.isWs).takeWhile
               (fun c => ¬ Gemtext.isWs c)⟩,
            ⟨Gemtext.trimChars
               (((' ' :: (ls.data ++ ['/'])).dropWhile Gemtext.isWs).dropWhile
                 (fun c => ¬ Gemtext.isWs c))⟩)) := rfl
  rw [hred]
  rw [show (' ' :: (ls.data ++ ['/'])).dropWhile Gemtext.isWs
      = (ls.data ++ ['/']).dropWhile Gemtext.isWs from
    List.dropWhile_cons_of_pos (by decide)]
  rw [dropWhile_eq_self_of_head hhead]
  rw [show (' ' :: (ls.data ++ ['/'])).takeWhile Gemtext.isWs
      = ' ' :: (ls.data ++ ['/']).takeWhile Gemtext.isWs from
    List.takeWhile_cons_of_pos (by decide)]
  rw [takeWhile_eq_nil_of_head hhead]
  rw [takeWhile_eq_self_of_all (p := fun c => decide (¬ Gemtext.isWs c = true))
    (by intro c hc; simp [hall c hc])]
  rw [dropWhile_eq_nil_of_all (p := fun c => decide (¬ Gemtext.isWs c = true))
    (by intro c hc; simp [hall c hc])]
  rw [if_neg (by simp)]
  rw [if_neg (by simp)]
  rw [if_neg (by simp [Gemtext.trimChars])]
  rfl

/-- C6: fetching an existing directory through a file URL without a trailing
slash yields `Ok` (not an error) with status `DirNeedsSlash`, and the body's
final line is a gemtext link whose target is the percent-escaped last path
segment with a slash appended (parsed URL segments contain no whitespace,
which the hypothesis reflects). -/
theorem c6_dir_needs_slash_redirect_hint :
    ∀ (fs : Net.Fs) (u : Net.FileUrl) (m : Net.FsMeta) (last_seg : String),
      u.scheme = "file" →
      u.segs.getLast? = some last_seg →
      last_seg ≠ "" →
      (∀ c ∈ last_seg.data, Gemtext.isWs c = false) →
      Net.stat fs u.path = .ok m →
      m.is_dir = true →
      Net.FileLoader.fetchUrl fs u
        = .ok ⟨u.toUrlString, .fileStatus .dirNeedsSlash, none, some Net.text_gemini,
               .text ("# File Not Found\n\n"
                      ++ "... but we found a directory. Did you mean:\n\n"
                      ++ "=> " ++ Net.escapeSpaces last_seg ++ "/")⟩
      ∧ Gemtext.Options.parse ⟨false⟩
          ("# File Not Found\n\n" ++ "... but we found a directory. Did you mean:\n\n"
           ++ "=> " ++ Net.escapeSpaces last_seg ++ "/")
        = .ok [.heading 1 "File Not Found", .text "",
               .text "... but we found a directory. Did you mean:", .text "",
               .link (Net.escapeSpaces last_seg ++ "/") ""] := by
  intro fs u m ls hscheme hlast hne hnws hstat hdir
  have hnospace : ' ' ∉ ls.data := by
    intro hm2
    have := hnws ' ' hm2
    simp [Gemtext.isWs] at this
  have hesc : Net.escapeSpaces ls = ls := escapeSpaces_eq_self hnospace
  constructor
  · -- the fetch itself
    unfold Net.FileLoader.fetchUrl
    rw [if_neg (by simp [hscheme])]
    have hpes : u.pathEndsWithSlash = false := by
      unfold Net.FileUrl.pathEndsWithSlash
      have h1 : ¬ u.segs = [] := by
        intro he
        rw [he] at hlast
        simp at hlast
      have h2 : ¬ u.segs.getLast? = some "" := by
        rw [hlast]
        simpa using hne
      simp [h1, h2]
    simp only [hstat]
    rw [if_pos hdir, if_pos (by simp [hpes])]
    unfold Net.dir_needs_slash
    rw [hlast]
  · -- the body parses with a link to the slash-suffixed escaped segment
    rw [hesc]
    set l5d : List Char := '=' :: '>' :: ' ' :: (ls.data ++ ['/']) with hl5d
    have hA : ("# File Not Found\n\n" : String).data
        = "# File Not Found".data ++ ['\n', '\n'] := rfl
    have hB : ("... but we found a directory. Did you mean:\n\n" : String).data
        = "... but we found a directory. Did you mean:".data ++ ['\n', '\n'] := rfl
    have hdata : ("# File Not Found\n\n"
        ++ "... but we found a directory. Did you mean:\n\n"
        ++ "=> " ++ ls ++ "/" : String).data
        = "# File Not Found".data ++ '\n' :: '\n'
          :: ("... but we found a directory. Did you mean:".data ++ '\n' :: '\n' :: l5d) := by
      simp only [String.data_append]
      simp [hl5d, List.append_assoc]
    have hnl5 : ∀ c ∈ l5d, c ≠ '\n' := by
      intro c hc
      rw [hl5d] at hc
      simp only [List.mem_cons, List.mem_append, List.mem_singleton] at hc
      rcases hc with rfl | rfl | rfl | hc | rfl | hc0
      · decide
      · decide
      · decide
      · intro he
        have := hnws c hc
        rw [he] at this
        simp [Gemtext.isWs] at this
      · decide
      · exact absurd hc0 (by simp)
    have hgl5 : l5d.getLast? = some '/' := by
      rw [show l5d = ('=' :: '>' :: ' ' :: ls.data) ++ ['/'] by rw [hl5d]; simp]
      exact List.getLast?_concat _
    have hsplit : Gemtext.splitNL ("# File Not Found\n\n"
        ++ "... but we found a directory. Did you mean:\n\n"
        ++ "=> " ++ ls ++ "/" : String).data
        = ["# File Not Found".data, [],
           "... but we found a directory. Did you mean:".data, [], l5d] := by
      rw [hdata]
      rw [splitNL_append_cons _ (by decide)]
      rw [show Gemtext.splitNL ('\n'
          :: ("... but we found a directory. Did you mean:".data ++ '\n' :: '\n' :: l5d))
          = [] :: Gemtext.splitNL
              ("... but we found a directory. Did you mean:".data ++ '\n' :: '\n' :: l5d)
        from by simp [Gemtext.splitNL]]
      rw [splitNL_append_cons _ (by decide)]
      rw [show Gemtext.splitNL ('\n' :: l5d) = [] :: Gemtext.splitNL l5d
        from by simp [Gemtext.splitNL]]
      rw [splitNL_eq_single hnl5]
    have hlastbody : ("# File Not Found\n\n"
        ++ "... but we found a directory. Did you mean:\n\n"
        ++ "=> " ++ ls ++ "/" : String).data.getLast? = some '/' := by
      rw [String.data_append, show ("/" : String).data = ['/'] from rfl]
      exact List.getLast?_concat _
    have s5 : Gemtext.stripCRChars l5d = l5d := by
      unfold Gemtext.stripCRChars
      rw [if_neg (by rw [hgl5]; simp)]
    have hlines : Gemtext.rustLines ("# File Not Found\n\n"
        ++ "... but we found a directory. Did you mean:\n\n"
        ++ "=> " ++ ls ++ "/")
        = ["# File Not Found", "",
           "... but we found a directory. Did you mean:", "", ⟨l5d⟩] := by
      simp only [Gemtext.rustLines]
      rw [if_neg (by rw [hdata]; simp)]
      rw [hsplit]
      rw [if_neg (by rw [hlastbody]; simp)]
      simp only [List.map_cons, List.map_nil, s5]
      rfl
    unfold Gemtext.Options.parse
    rw [hlines]
    rw [show Gemtext.parseLoop false none none []
        ["# File Not Found", "",
         "... but we found a directory. Did you mean:", "", ⟨l5d⟩]
        = Gemtext.parseLoop false none none
            [.heading 1 "File Not Found", .text "",
             .text "... but we found a directory. Did you mean:", .text ""] [⟨l5d⟩]
      from rfl]
    have hL5 : Gemtext.LinkLine.parse ⟨l5d⟩ = some (⟨ls.data ++ ['/']⟩, "") :=
      linkParse_escaped_dir_line ls hnws
    have hurl : (⟨ls.data ++ ['/']⟩ : String) = ls ++ "/" := by
      apply String.ext
      rw [String.data_append, show ("/" : String).data = ['/'] from rfl]
    simp only [Gemtext.parseLoop,
      show Gemtext.strStartsWith ⟨l5d⟩ "```" = false from rfl,
      show Gemtext.strStartsWith ⟨l5d⟩ ">" = false from rfl,
      show Gemtext.HeaderLine.parse ⟨l5d⟩ = none from rfl,
      hL5, hurl, Bool.false_eq_true, if_false, Gemtext.quoteFlush]
    simp [Gemtext.parseLoop, Gemtext.quoteFlush]

/-- Witness for C6: a directory `/d` fetched as `file:///d`. -/
theorem c6_dir_needs_slash_redirect_hint_witness :
    Net.FileLoader.fetchUrl [("/d", .dir)] ⟨"file", ["d"]⟩
      = .ok ⟨"file:///d", .fileStatus .dirNeedsSlash, none, some Net.text_gemini,
             .text ("# File Not Found\n\n"
                    ++ "... but we found a directory. Did you mean:\n\n"
                    ++ "=> " ++ Net.escapeSpaces "d" ++ "/")⟩
    ∧ Gemtext.Options.parse ⟨false⟩
        ("# File Not Found\n\n" ++ "... but we found a directory. Did you mean:\n\n"
         ++ "=> " ++ Net.escapeSpaces "d" ++ "/")
      = .ok [.heading 1 "File Not Found", .text "",
             .text "... but we found a directory. Did you mean:", .text "",
             .link (Net.escapeSpaces "d" ++ "/") ""] :=
  c6_dir_needs_slash_redirect_hint [("/d", .dir)] ⟨"file", ["d"]⟩ ⟨true, false, 0⟩
    "d" rfl rfl (by decide) (by decide) rfl rfl

/-- C7: an image nested inside a link — events
`Start(Link dest) · Start(Image src) · [Text alt] · End(Image) · End(Link)` —
yields one `LinkedImage` whose link href is the link's destination (with
empty link text) and whose image alt is the inner text, falling back to the
image's reference id and then to the raw image URL when absent; `parse_link`
consumes exactly through `End(Link)` for any extra fuel `f` and trailing
events `rest`. -/
theorem c7_linked_image_alt_and_href :
    ∀ (f : Nat) (dest_url src ititle iid alt : String) (rest : List Md.Event),
      Md.parse_link (f + 12) dest_url
          (.startTag (.image src ititle iid) :: .text alt :: .endTag .image
            :: .endTag .link :: rest)
        = some ([.linkedImage ⟨dest_url, ""⟩
                 ⟨src,
                  (if (if alt = "" then iid else alt) = "" then src
                   else (if alt = "" then iid else alt)),
                  ititle⟩], rest)
      ∧ Md.parse_link (f + 12) dest_url
          (.startTag (.image src ititle iid) :: .endTag .image
            :: .endTag .link :: rest)
        = some ([.linkedImage ⟨dest_url, ""⟩
                 ⟨src, (if iid = "" then src else iid), ititle⟩], rest) := by
  intro f dest_url src ititle iid alt rest
  exact ⟨rfl, rfl⟩

/-- Witness for C7 (binder instantiation): the spec's own example
`[![alt](img.png)](page.html)` at fuel 12. -/
theorem c7_linked_image_alt_and_href_witness :
    Md.parse_link 12 "page.html"
        [.startTag (.image "img.png" "" ""), .text "alt", .endTag .image,
         .endTag .link]
      = some ([.linkedImage ⟨"page.html", ""⟩ ⟨"img.png", "alt", ""⟩], []) := by
  have h := (c7_linked_image_alt_and_href 0 "page.html" "img.png" "" "" "alt" []).1
  simpa using h

/-- Head shape of `pushInline` on a nonempty list: the head keeps its
pseudo-paragraph status (a merge replaces a trailing pseudo-paragraph with a
pseudo-paragraph). -/
lemma pushInline_head_pseudo (b : Md.MdBlock) (t : List Md.MdBlock) (x : Md.MdInline) :
    ∃ h2 t2, Md.pushInline (b :: t) x = h2 :: t2
      ∧ Md.isPseudo h2 = Md.isPseudo b := by
  cases t with
  | nil => cases b <;> exact ⟨_, _, rfl, rfl⟩
  | cons c t2 => exact ⟨b, Md.pushInline (c :: t2) x, rfl, rfl⟩

/-- `push_inline` preserves the no-adjacent-pseudo-paragraph invariant. -/
lemma noAdjPP_pushInline (l : List Md.MdBlock) (x : Md.MdInline)
    (h : Md.noAdjPP l = true) : Md.noAdjPP (Md.pushInline l x) = true := by
  induction l with
  | nil => rfl
  | cons a t ih =>
    cases t with
    | nil => cases a <;> rfl
    | cons b t2 =>
      obtain ⟨h2, t3, heq, hps⟩ := pushInline_head_pseudo b t2 x
      simp only [Md.noAdjPP, Bool.and_eq_true] at h
      have ih2 := ih h.2
      show Md.noAdjPP (a :: Md.pushInline (b :: t2) x) = true
      rw [heq]
      have ih3 : Md.noAdjPP (h2 :: t3) = true := heq ▸ ih2
      simp only [Md.noAdjPP, Bool.and_eq_true]
      refine ⟨?_, ih3⟩
      rw [hps]
      exact h.1

/-- Appending a non-pseudo block preserves the invariant. -/
lemma noAdjPP_append_nonpseudo (l : List Md.MdBlock) (b : Md.MdBlock)
    (h : Md.noAdjPP l = true) (hb : Md.isPseudo b = false) :
    Md.noAdjPP (l ++ [b]) = true := by
  induction l with
  | nil => rfl
  | cons a t ih =>
    cases t with
    | nil => simp [Md.noAdjPP, hb]
    | cons c t2 =>
      simp only [List.cons_append] at *
      simp only [Md.noAdjPP, Bool.and_eq_true] at h ⊢
      exact ⟨h.1, ih h.2⟩

/-- Folding `push_inline` over any inline list preserves the invariant. -/
lemma noAdjPP_foldl_pushInline (xs : List Md.MdInline) (l : List Md.MdBlock)
    (h : Md.noAdjPP l = true) :
    Md.noAdjPP (xs.foldl Md.pushInline l) = true := by
  induction xs generalizing l with
  | nil => exact h
  | cons x xs ih => exact ih _ (noAdjPP_pushInline _ _ h)

/-- C10: every block list produced by `parse_blocks_until` — at any
recursion depth, since the statement quantifies over all predicates, fuels
and event streams — contains no two adjacent pseudo-paragraphs, provided the
accumulator it starts from satisfies the invariant (the parser always starts
sub-parses from the empty accumulator): consecutive stray inline events are
merged into the trailing pseudo-paragraph by `push_inline`, and every other
appended block is not a pseudo-paragraph. -/
theorem c10_no_adjacent_pseudo_paragraphs :
    ∀ (fuel : Nat) (matchesEnd : Md.TagEnd → Bool) (blocks : List Md.MdBlock)
      (events : List Md.Event) (out : List Md.MdBlock) (rest : List Md.Event),
      Md.go fuel matchesEnd blocks events = some (out, rest) →
      Md.noAdjPP blocks = true → Md.noAdjPP out = true := by
  intro fuel
  induction fuel with
  | zero =>
    intro me bs es out rest hgo hb
    simp [Md.go] at hgo
  | succ f ih =>
    intro me bs es out rest hgo hb
    cases es with
    | nil =>
      simp only [Md.go, Option.some.injEq, Prod.mk.injEq] at hgo
      obtain ⟨rfl, rfl⟩ := hgo
      exact hb
    | cons e es2 =>
      cases e with
      | endTag tag =>
        simp only [Md.go] at hgo
        by_cases hm : me tag = true
        · rw [if_pos hm] at hgo
          simp only [Option.some.injEq, Prod.mk.injEq] at hgo
          obtain ⟨rfl, rfl⟩ := hgo
          exact hb
        · rw [if_neg hm] at hgo
          exact ih _ _ _ _ _ hgo (noAdjPP_pushInline _ _ hb)
      | startTag tag =>
        cases tag <;> simp only [Md.go] at hgo <;>
          first
            | exact ih _ _ _ _ _ hgo (noAdjPP_append_nonpseudo _ _ hb rfl)
            | exact ih _ _ _ _ _ hgo (noAdjPP_pushInline _ _ hb)
            | exact ih _ _ _ _ _ hgo hb
            | (split at hgo <;>
                first
                  | exact Option.noConfusion hgo
                  | exact ih _ _ _ _ _ hgo (noAdjPP_append_nonpseudo _ _ hb rfl)
                  | exact ih _ _ _ _ _ hgo (noAdjPP_pushInline _ _ hb)
                  | exact ih _ _ _ _ _ hgo (noAdjPP_foldl_pushInline _ _ hb))
      | text s =>
        simp only [Md.go] at hgo
        exact ih _ _ _ _ _ hgo (noAdjPP_pushInline _ _ hb)
      | code s =>
        simp only [Md.go] at hgo
        exact ih _ _ _ _ _ hgo (noAdjPP_pushInline _ _ hb)
      | rule =>
        simp only [Md.go] at hgo
        exact ih _ _ _ _ _ hgo (noAdjPP_append_nonpseudo _ _ hb rfl)
      | softBreak =>
        simp only [Md.go] at hgo
        exact ih _ _ _ _ _ hgo (noAdjPP_pushInline _ _ hb)
      | hardBreak =>
        simp only [Md.go] at hgo
        exact ih _ _ _ _ _ hgo (noAdjPP_pushInline _ _ hb)
      | inlineMath s =>
        simp only [Md.go] at hgo
        exact ih _ _ _ _ _ hgo (noAdjPP_pushInline _ _ hb)
      | displayMath s =>
        simp only [Md.go] at hgo
        exact ih _ _ _ _ _ hgo (noAdjPP_pushInline _ _ hb)
      | html s =>
        simp only [Md.go] at hgo
        exact ih _ _ _ _ _ hgo (noAdjPP_pushInline _ _ hb)
      | inlineHtml s =>
        simp only [Md.go] at hgo
        exact ih _ _ _ _ _ hgo (noAdjPP_pushInline _ _ hb)
      | footnoteReference s =>
        simp only [Md.go] at hgo
        exact ih _ _ _ _ _ hgo (noAdjPP_pushInline _ _ hb)
      | taskListMarker c =>
        simp only [Md.go] at hgo
        exact ih _ _ _ _ _ hgo (noAdjPP_pushInline _ _ hb)

/-- Witness for C10: the invariant applied to a concrete parse whose stray
inlines straddle a rule. -/
theorem c10_no_adjacent_pseudo_paragraphs_witness :
    Md.noAdjPP [.pseudoP [.text "a", .text "b"], .hr, .pseudoP [.text "c"]]
      = true :=
  c10_no_adjacent_pseudo_paragraphs 6 (fun _ => false) []
    [.text "a", .text "b", .rule, .text "c"]
    [.pseudoP [.text "a", .text "b"], .hr, .pseudoP [.text "c"]] []
    rfl rfl

